import Mathlib

/-!
Verification development for the vulpi bidirectional type checker
(crates/vulpi-typer).  The sources mix several snapshots of the typer:
`lib.rs`, `unify.rs` and `infer/expr.rs` form one consistent snapshot
(namespace `VA` below: arrows without effects, holes are `Empty/Filled`),
while `context.rs` belongs to a later snapshot with effect rows
(namespace `VB` below: arrows carry an effect component, holes may also be
`Row`).  The evaluator/quoter (`eval.rs`) is not present in the sources,
so `eval` and `quote` are modelled from the specification (section 4.1).

Shared mutable hole cells are modelled by a store: a list of hole states
indexed by hole id; `fill` is `List.set`.  Operations that in Rust recurse
through `Filled` chains or apply closures take an explicit fuel argument
and return `none` when fuel runs out; `none` also models a Rust panic.
-/

/-- Reduction of an `Option` bind on `some` (the do-notation form). -/
theorem optBindSome {α β : Type} (a : α) (f : α → Option β) :
    (some a >>= f) = f a := rfl

/-- Reduction of an `Option` bind on `none` (the do-notation form). -/
theorem optBindNone {α β : Type} (f : α → Option β) :
    ((none : Option α) >>= f) = none := rfl

namespace VA

/-- Fully qualified identifier (vulpi-syntax `Qualified`): a module path
and a name. -/
structure Qualified where
  path : String
  name : String
deriving DecidableEq, Repr

/-- Real types (`lib.rs` `TypeKind` with `State = Real`): inert first-order
syntax, De Bruijn indices for bound variables, arrows without binder.
Hole ids point into the shared store of `Hole<Virtual>` cells (in this
snapshot both `Real` and `Virtual` types embed `Hole<Virtual>`). -/
inductive RTy where
  | typ : RTy
  | constraint : RTy
  | arrow (dom cod : RTy)
  | forallR (name : String) (kind : RTy) (body : RTy)
  | hole (h : Nat)
  | variable (q : Qualified)
  | bound (idx : Nat)
  | tuple (ts : List RTy)
  | app (f a : RTy)
  | qualified (c t : RTy)
  | error : RTy
deriving Repr

mutual
/-- Virtual types (`lib.rs` `TypeKind` with `State = Virtual`): evaluated
view, De Bruijn levels, `Forall` bodies are closures capturing an `EnvT`
together with a Real body. -/
inductive VTy where
  | typ : VTy
  | constraint : VTy
  | arrow (dom cod : VTy)
  | forallV (name : String) (kind : VTy) (cenv : EnvT) (cbody : RTy)
  | hole (h : Nat)
  | variable (q : Qualified)
  | bound (lvl : Nat)
  | tuple (ts : List VTy)
  | app (f a : VTy)
  | qualified (c t : VTy)
  | error : VTy

/-- Typing environment (`lib.rs` `virtual::Env`): binder name/type/kind
stacks (front-pushed), term-variable map (as an association list) and the
current level.  The `span` field is omitted (it only feeds diagnostics'
source locations). -/
inductive EnvT where
  | mk (names : List (Option String)) (types : List VTy) (kinds : List VTy)
       (vars : List (String × VTy)) (lvl : Nat)
end

/-- Hole cell states (`lib.rs` `HoleInner`): this snapshot has no `Row`
state. -/
inductive HoleInnerA where
  | emptyH (name : String) (kind : VTy) (lvl : Nat)
  | filledH (t : VTy)

/-- The store of hole cells: cell identity is the list index. -/
abbrev StoreA := List HoleInnerA

def EnvT.names : EnvT → List (Option String)
  | .mk n _ _ _ _ => n

def EnvT.types : EnvT → List VTy
  | .mk _ t _ _ _ => t

def EnvT.kinds : EnvT → List VTy
  | .mk _ _ k _ _ => k

def EnvT.vars : EnvT → List (String × VTy)
  | .mk _ _ _ v _ => v

def EnvT.lvl : EnvT → Nat
  | .mk _ _ _ _ l => l

/-- `Env::add` (`lib.rs`): pushes the binder name, an abstract
`Bound(level)` as its type, the given kind, and increments the level. -/
def envAdd (e : EnvT) (name : Option String) (kind : VTy) : EnvT :=
  .mk (name :: e.names) (.bound e.lvl :: e.types) (kind :: e.kinds) e.vars (e.lvl + 1)

/-- `Env::define` (`lib.rs`): pushes a concrete type for the binder. -/
def envDefine (e : EnvT) (name : Option String) (ty kind : VTy) : EnvT :=
  .mk (name :: e.names) (ty :: e.types) (kind :: e.kinds) e.vars (e.lvl + 1)

/-- `Env::add_var` (`lib.rs`): inserts a term variable. -/
def envAddVar (e : EnvT) (name : String) (ty : VTy) : EnvT :=
  .mk e.names e.types e.kinds ((name, ty) :: e.vars) e.lvl

/-- Term-variable lookup (`im_rc::HashMap::get` on `Env::vars`). -/
def lookupVar (e : EnvT) (name : String) : Option VTy :=
  (e.vars.find? (fun p => p.1 = name)).map Prod.snd

/-- The empty environment (`Env::default`). -/
def emptyEnvA : EnvT := .mk [] [] [] [] 0

/-- `Hole::is_empty` (`lib.rs`), read through the store. -/
def isEmptyHoleA (σ : StoreA) (h : Nat) : Bool :=
  match σ[h]? with
  | some (.emptyH _ _ _) => true
  | _ => false

/-- `Type::<Virtual>::deref` (`lib.rs` 371-379): walks `Filled` hole
chains; fueled because the chain is chased through the store. -/
def derefA : Nat → VTy → StoreA → Option VTy
  | 0, _, _ => none
  | f + 1, t, σ =>
    match t with
    | .hole h =>
      match σ[h]? with
      | some (.filledH u) => derefA f u σ
      | _ => some t
    | _ => some t

example : derefA 3 (.hole 0) [.filledH (.hole 1), .emptyH "a" .typ 0] = some (.hole 1) := rfl

mutual
/-- Structural size of a Real type (spine steps of lists included); used
as a fuel bound for quotation. -/
def sizeR : RTy → Nat
  | .typ => 1
  | .constraint => 1
  | .arrow d c => 1 + sizeR d + sizeR c
  | .forallR _ k b => 1 + sizeR k + sizeR b
  | .hole _ => 1
  | .variable _ => 1
  | .bound _ => 1
  | .tuple ts => 1 + sizeRList ts
  | .app f a => 1 + sizeR f + sizeR a
  | .qualified c t => 1 + sizeR c + sizeR t
  | .error => 1

def sizeRList : List RTy → Nat
  | [] => 1
  | t :: ts => 1 + sizeR t + sizeRList ts
end

mutual
/-- Evaluation Real→Virtual.  Modelled from the spec (§4.1; `eval.rs` is
missing from the sources): `Forall` captures the current env in a
closure, `Bound(i)` resolves to `env.types[i]` (an out-of-range index is
a panic in Rust; here it evaluates to `Error`, excluded by the
well-formedness hypotheses of the theorems below), all other nodes
recurse structurally. -/
def evalA : RTy → EnvT → VTy
  | .typ, _ => .typ
  | .constraint, _ => .constraint
  | .arrow d c, e => .arrow (evalA d e) (evalA c e)
  | .forallR n k b, e => .forallV n (evalA k e) e b
  | .hole h, _ => .hole h
  | .variable q, _ => .variable q
  | .bound i, e => (e.types[i]?).getD .error
  | .tuple ts, e => .tuple (evalListA ts e)
  | .app f a, e => .app (evalA f e) (evalA a e)
  | .qualified c t, e => .qualified (evalA c e) (evalA t e)
  | .error, _ => .error

def evalListA : List RTy → EnvT → List VTy
  | [], _ => []
  | t :: ts, e => evalA t e :: evalListA ts e
end

/-- `Closure::apply_local` (`lib.rs` 317-319): evaluates the closure body
under `env.add(name, arg)`.  Note that `Env::add` pushes `Bound(env.level)`
as the binder's type and records `arg` in the kind stack. -/
def applyLocalA (cenv : EnvT) (body : RTy) (name : Option String) (arg : VTy) : VTy :=
  evalA body (envAdd cenv name arg)

/-- `Closure::apply` (`lib.rs` 308-315): evaluates the closure body under
`env.define(name, arg, kind)`. -/
def applyA (cenv : EnvT) (body : RTy) (name : Option String) (arg kind : VTy) : VTy :=
  evalA body (envDefine cenv name arg kind)

mutual
/-- Quotation Virtual→Real at a level.  Modelled from the spec (§4.1;
`eval.rs` is missing): closures are run by applying them (through
`apply_local`, as everywhere in `unify.rs`) to an abstract
`Bound(current-level)` argument and quoting the result at `level+1`;
levels convert to indices by `idx = base - current - 1` (`Level::to_index`
panics when the base is not larger than the level, modelled by `none`);
a `Filled` hole quotes its payload, an `Empty` hole quotes as the same
cell.  Fueled: every recursive call decrements. -/
def quoteA : Nat → Nat → VTy → StoreA → Option RTy
  | 0, _, _, _ => none
  | f + 1, lvl, v, σ =>
    match v with
    | .typ => some .typ
    | .constraint => some .constraint
    | .arrow d c => do pure (.arrow (← quoteA f lvl d σ) (← quoteA f lvl c σ))
    | .forallV n k cenv cb => do
        let kq ← quoteA f lvl k σ
        let bq ← quoteA f (lvl + 1) (applyLocalA cenv cb none (.bound lvl)) σ
        pure (.forallR n kq bq)
    | .hole h =>
      match σ[h]? with
      | some (.filledH u) => quoteA f lvl u σ
      | _ => some (.hole h)
    | .variable q => some (.variable q)
    | .bound l => if l < lvl then some (.bound (lvl - l - 1)) else none
    | .tuple ts => do pure (.tuple (← quoteListA f lvl ts σ))
    | .app g a => do pure (.app (← quoteA f lvl g σ) (← quoteA f lvl a σ))
    | .qualified c t => do pure (.qualified (← quoteA f lvl c σ) (← quoteA f lvl t σ))
    | .error => some .error

def quoteListA : Nat → Nat → List VTy → StoreA → Option (List RTy)
  | 0, _, _, _ => none
  | _ + 1, _, [], _ => some []
  | f + 1, lvl, v :: vs, σ => do pure ((← quoteA f lvl v σ) :: (← quoteListA f lvl vs σ))
end

/-- Type-error kinds (`errors.rs` is missing from the sources; modelled
from spec §7 and from the constructions visible in `unify.rs` and
`infer/expr.rs`; payloads no claim inspects are elided). -/
inductive TypeErrorKind where
  | typeMismatch (env : EnvT) (lhs rhs : RTy)
  | infiniteType
  | escapingScope
  | notAFunction (env : EnvT) (t : RTy)
  | notARecord
  | notFoundField
  | duplicatedField
  | missingField (name : String)
  | wrongArity (expected got : Nat)
  | mismatchArityInPattern (expected got : Nat)
  | extraPattern
  | atLeastOneArgument
  | nonExhaustive
  | alreadyCaptured (name : String)

/-- The mutable `Context` (`context.rs` 26-31) restricted to what the
unifier touches: the hole store (standing in for the `Rc<RefCell<_>>`
cells), the fresh-name counter and the diagnostic sink (`reporter`,
as the list of reported error kinds in order). -/
structure StateA where
  store : StoreA
  counter : Nat
  diags : List TypeErrorKind

/-- `Context::report` (`context.rs` 43-48): push a diagnostic. -/
def reportA (st : StateA) (kind : TypeErrorKind) : StateA :=
  { st with diags := st.diags ++ [kind] }

/-- `Context::hole` (`context.rs` 60-63): `env.hole(kind, new_name())` —
a fresh `Empty` cell named `t_<counter>` at the env's level, appended to
the store; returns the new cell's id. -/
def ctxHoleIdA (env : EnvT) (kind : VTy) (st : StateA) : Nat × StateA :=
  (st.store.length,
   { st with
       store := st.store ++ [.emptyH ("t_" ++ toString st.counter) kind env.lvl]
       counter := st.counter + 1 })

/-- Sequencing of two occurs-check results: Rust's `?` operator on the
first followed by the second. -/
def seqE (x y : Option (Except TypeErrorKind Unit)) : Option (Except TypeErrorKind Unit) :=
  match x with
  | none => none
  | some (.ok _) => y
  | some (.error e) => some (.error e)

mutual
/-- `Context::occurs` (`unify.rs` 182-203): pure traversal of the
dereferenced type; `Forall` bodies are entered by `apply_local` with
`Bound(env.level)`; reaching the hole itself is `InfiniteType`, reaching
a `Bound(l)` with `l ≥ scope` is `EscapingScope`; any other head
(including `Qualified`) falls to the final `Ok` arm. -/
def occursA : Nat → EnvT → Nat → Nat → VTy → StoreA → Option (Except TypeErrorKind Unit)
  | 0, _, _, _, _, _ => none
  | f + 1, env, scope, hole, t, σ => do
    match ← derefA f t σ with
    | .arrow d c => seqE (occursA f env scope hole d σ) (occursA f env scope hole c σ)
    | .forallV _ _ cenv cb =>
        occursA f env scope hole (applyLocalA cenv cb none (.bound env.lvl)) σ
    | .hole h => if h = hole then pure (.error .infiniteType) else pure (.ok ())
    | .bound l => if scope ≤ l then pure (.error .escapingScope) else pure (.ok ())
    | .tuple ts => occursListA f env scope hole ts σ
    | .app g a => seqE (occursA f env scope hole g σ) (occursA f env scope hole a σ)
    | _ => pure (.ok ())

def occursListA : Nat → EnvT → Nat → Nat → List VTy → StoreA → Option (Except TypeErrorKind Unit)
  | 0, _, _, _, _, _ => none
  | _ + 1, _, _, _, [], _ => some (.ok ())
  | f + 1, env, scope, hole, x :: xs, σ =>
      seqE (occursA f env scope hole x σ) (occursListA f env scope hole xs σ)
end

/-- `Context::instantiate` (`context.rs` 104-121), adapted to this
snapshot's types: peel one leading `Forall` after deref, supplying a
fresh `Empty` hole named after the binder at the binder's kind and at
the env's level (the later snapshot's row/lacks branch is vacuous here:
this snapshot has no row kinds), and apply the closure body; any other
type is returned unchanged (the original, not its deref). -/
def instantiateA (f : Nat) (env : EnvT) (ty : VTy) (σ : StoreA) : Option (VTy × StoreA) := do
  match ← derefA f ty σ with
  | .forallV n k cenv cb =>
      pure (applyA cenv cb (some n) (.hole σ.length) k, σ ++ [.emptyH n k env.lvl])
  | _ => pure (ty, σ)

/-- `instantiateA` acting on the full mutable context. -/
def instantiateStA (f : Nat) (env : EnvT) (ty : VTy) (st : StateA) : Option (VTy × StateA) :=
  (instantiateA f env ty st.store).map (fun p => (p.1, { st with store := p.2 }))

/-- Result type of the unifier: `none` is fuel exhaustion or a Rust
panic, `some (.error e, st)` a value-returned type error. -/
abbrev ResA := Option (Except TypeErrorKind Unit × StateA)

/-- The `TypeMismatch` construction of `unify.rs` 174-178: the original
(un-dereferenced) sides quoted at `env.level` against the current store. -/
def mismatchA (f : Nat) (env : EnvT) (left right : VTy) (st : StateA) : ResA := do
  let ql ← quoteA f env.lvl left st.store
  let qr ← quoteA f env.lvl right st.store
  pure (.error (.typeMismatch env ql qr), st)

/-- The fill path of `Context::unify_hole` (`unify.rs` 210-214): the
occurs check with the hole's stored level as scope, then fill the cell
with the (un-dereferenced) right-hand side. -/
def unifyHoleFillA (f : Nat) (env : EnvT) (hole lvl : Nat) (right : VTy) (st : StateA) : ResA := do
  match ← occursA f env lvl hole right st.store with
  | .ok _ => pure (.ok (), { st with store := st.store.set hole (.filledH right) })
  | .error e => pure (.error e, st)

/-- Sequencing of two state-threading unifier steps: Rust's `?` operator
— an error in the first short-circuits with its state. -/
def seqA (x : ResA) (k : StateA → ResA) : ResA :=
  match x with
  | none => none
  | some (.ok _, st1) => k st1
  | some (.error e, st1) => some (.error e, st1)

mutual
/-- `Context::unify` (`unify.rs` 150-180): both sides are dereferenced,
then the match arms in source order (including the guard fall-throughs:
tuples of different arity, distinct bound levels and distinct variables
all fall through to the final `TypeMismatch` arm). -/
def unifyA : Nat → EnvT → VTy → VTy → StateA → ResA
  | 0, _, _, _, _ => none
  | f + 1, env, left, right, st => do
    let l ← derefA f left st.store
    let r ← derefA f right st.store
    match l, r with
    | .tuple xs, .tuple ys =>
        if xs.length = ys.length then unifyPairsA f env xs ys st
        else mismatchA f env left right st
    | .app f1 a1, .app f2 a2 =>
        seqA (unifyA f env f1 f2 st) (fun st1 => unifyA f env a1 a2 st1)
    | .qualified c1 t1, .qualified c2 t2 =>
        seqA (unifyA f env c1 c2 st) (fun st1 => unifyA f env t1 t2 st1)
    | .hole n, .hole m =>
        if n = m then pure (.ok (), st) else unifyHoleA f env n r st
    | .hole m, _ => unifyHoleA f env m r st
    | _, .hole m => unifyHoleA f env m l st
    | .bound x, .bound y =>
        if x = y then pure (.ok (), st) else mismatchA f env left right st
    | .variable x, .variable y =>
        if x = y then pure (.ok (), st) else mismatchA f env left right st
    | .typ, .typ => pure (.ok (), st)
    | .constraint, .constraint => pure (.ok (), st)
    | .error, _ => pure (.ok (), st)
    | _, .error => pure (.ok (), st)
    | _, _ => mismatchA f env left right st

/-- The `Tuple` arm's `try_for_each` over zipped components. -/
def unifyPairsA : Nat → EnvT → List VTy → List VTy → StateA → ResA
  | 0, _, _, _, _ => none
  | _ + 1, _, [], _, st => pure (.ok (), st)
  | _ + 1, _, _ :: _, [], st => pure (.ok (), st)
  | f + 1, env, x :: xs, y :: ys, st =>
      seqA (unifyA f env x y st) (fun st1 => unifyPairsA f env xs ys st1)

/-- `Context::unify_hole` (`unify.rs` 205-218): on an `Empty` cell, a
right-hand side dereferencing to the very same hole succeeds without
writing; otherwise the occurs check runs and on success the cell is
filled; on a `Filled` cell it recurses as `unify` on the payload. -/
def unifyHoleA : Nat → EnvT → Nat → VTy → StateA → ResA
  | 0, _, _, _, _ => none
  | f + 1, env, hole, right, st =>
    match st.store[hole]? with
    | some (.emptyH _ _ lvl) => do
        match ← derefA f right st.store with
        | .hole h1 =>
            if hole = h1 then pure (.ok (), st)
            else unifyHoleFillA f env hole lvl right st
        | _ => unifyHoleFillA f env hole lvl right st
    | some (.filledH u) => unifyA f env u right st
    | none => none
end

mutual
/-- The inner `go` of `Context::subsumes` (`unify.rs` 18-49), with the
source's arm order and guard fall-throughs made explicit (after deref a
hole can fail `is_empty` only for a dangling id, which cannot occur in
Rust; the fall-through arms are kept for fidelity of the ordering). -/
def subsumesGoA : Nat → EnvT → VTy → VTy → StateA → ResA
  | 0, _, _, _, _ => none
  | f + 1, env, left, right, st => do
    let l ← derefA f left st.store
    let r ← derefA f right st.store
    match l, r with
    | .hole n, rr =>
        if isEmptyHoleA st.store n then subHoleTypeA f env n rr st
        else
          match rr with
          | .hole m =>
              if isEmptyHoleA st.store m then subTypeHoleA f env l m st
              else unifyA f env l rr st
          | .forallV _ _ fcenv fcb =>
              subsumesGoA f (envAdd env none (.bound env.lvl)) l
                (applyLocalA fcenv fcb none (.bound env.lvl)) st
          | _ => unifyA f env l rr st
    | ll, .hole m =>
        if isEmptyHoleA st.store m then subTypeHoleA f env ll m st
        else
          match ll with
          | .forallV ln lk lcenv lcb => do
              let (inst, st1) ← instantiateStA f env (.forallV ln lk lcenv lcb) st
              subsumesGoA f env inst r st1
          | _ => unifyA f env ll r st
    | .arrow m1 m2, .arrow n1 n2 =>
        seqA (subsumesGoA f env n1 m1 st) (fun st1 => subsumesGoA f env m2 n2 st1)
    | ll, .forallV _ _ fcenv fcb =>
        subsumesGoA f (envAdd env none (.bound env.lvl)) ll
          (applyLocalA fcenv fcb none (.bound env.lvl)) st
    | .forallV ln lk lcenv lcb, rr => do
        let (inst, st1) ← instantiateStA f env (.forallV ln lk lcenv lcb) st
        subsumesGoA f env inst rr st1
    | ll, rr => unifyA f env ll rr st

/-- `Context::sub_hole_type` (`unify.rs` 68-106): right `Forall` is
skolemized under the binder's name; right `Arrow` splits the hole into
two fresh holes at the hole's kind, fills it with the arrow of those
holes and recurses with the variance swap on the domain; anything else
goes to `unify_hole`. -/
def subHoleTypeA : Nat → EnvT → Nat → VTy → StateA → ResA
  | 0, _, _, _, _ => none
  | f + 1, env, left, right, st => do
    match ← derefA f right st.store with
    | .forallV fn _ fcenv fcb =>
        subHoleTypeA f (envAdd env (some fn) (.bound env.lvl)) left
          (applyLocalA fcenv fcb none (.bound env.lvl)) st
    | .arrow a b =>
        match st.store[left]? with
        | some (.emptyH _ kind _) => do
            let (ha, st1) := ctxHoleIdA env kind st
            let (hb, st2) := ctxHoleIdA env kind st1
            let st3 :=
              { st2 with store := st2.store.set left (.filledH (.arrow (.hole ha) (.hole hb))) }
            seqA (subTypeHoleA f env a ha st3) (fun st4 => subHoleTypeA f env hb b st4)
        | _ => none
    | _ => unifyHoleA f env left right st

/-- `Context::sub_type_hole` (`unify.rs` 108-143): the mirror image of
`sub_hole_type`; a left `Forall` is instantiated, a left `Arrow` splits
the hole, anything else goes to `unify_hole` with the hole first. -/
def subTypeHoleA : Nat → EnvT → VTy → Nat → StateA → ResA
  | 0, _, _, _, _ => none
  | f + 1, env, left, right, st => do
    match ← derefA f left st.store with
    | .forallV ln lk lcenv lcb => do
        let (inst, st1) ← instantiateStA f env (.forallV ln lk lcenv lcb) st
        subTypeHoleA f env inst right st1
    | .arrow a b =>
        match st.store[right]? with
        | some (.emptyH _ kind _) => do
            let (ha, st1) := ctxHoleIdA env kind st
            let (hb, st2) := ctxHoleIdA env kind st1
            let st3 :=
              { st2 with store := st2.store.set right (.filledH (.arrow (.hole ha) (.hole hb))) }
            seqA (subHoleTypeA f env ha a st3) (fun st4 => subTypeHoleA f env b hb st4)
        | _ => none
    | _ => unifyHoleA f env right left st
end

/-- `Context::subsumes` (`unify.rs` 17-66): run `go`; on an error, a
`TypeMismatch` kind is replaced by a `TypeMismatch` carrying the outer
(original) sides quoted at `env.level`, while any other kind is reported
unchanged. -/
def subsumesA (f : Nat) (env : EnvT) (left right : VTy) (st : StateA) : Option StateA := do
  match ← subsumesGoA f env left right st with
  | (.ok _, st1) => pure st1
  | (.error kind, st1) =>
    match kind with
    | .typeMismatch _ _ _ => do
        let ql ← quoteA f env.lvl left st1.store
        let qr ← quoteA f env.lvl right st1.store
        pure (reportA st1 (.typeMismatch env ql qr))
    | k => pure (reportA st1 k)

/-- The expression forms needed by the claims about `infer`
(`infer/expr.rs`): variables, tuples and the error expression; the other
arms exercise collaborators (registry, patterns, coverage) that no claim
here inspects. -/
inductive ExprA where
  | variable (m : String)
  | tuple (es : List ExprA)
  | error : ExprA

/-- The corresponding arms of the elaborated output tree
(`elaborated::ExprKind`). -/
inductive EOutA where
  | variableE (m : String)
  | tupleE (es : List EOutA)
  | errorE : EOutA

mutual
/-- `<Expr as Infer>::infer` (`infer/expr.rs` 32-134) restricted to the
embedded arms.  The `Variable` arm is `env.vars.get(m).unwrap().clone()`
(lines 76-79): an unbound variable is a panic — modelled by `none` — not
a reported diagnostic and not an `Error` type. -/
def inferA : ExprA → EnvT → StateA → Option (VTy × EOutA × StateA)
  | .variable m, env, st =>
      match lookupVar env m with
      | some t => some (t, .variableE m, st)
      | none => none
  | .tuple es, env, st => do
      let (ts, els, st1) ← inferListA es env st
      pure (.tuple ts, .tupleE els, st1)
  | .error, _, st => some (.error, .errorE, st)

def inferListA : List ExprA → EnvT → StateA → Option (List VTy × List EOutA × StateA)
  | [], _, st => some ([], [], st)
  | e :: es, env, st => do
      let (t, el, st1) ← inferA e env st
      let (ts, els, st2) ← inferListA es env st1
      pure (t :: ts, el :: els, st2)
end

mutual
/-- Syntactic test used to exhibit the escaping-bound fill: does the
Virtual term contain, outside closure bodies, a `Bound(l)` with
`l ≥ scope`? -/
def hasEscapingBound (scope : Nat) : VTy → Bool
  | .arrow d c => hasEscapingBound scope d || hasEscapingBound scope c
  | .forallV _ k _ _ => hasEscapingBound scope k
  | .bound l => scope ≤ l
  | .tuple ts => hasEscapingBoundList scope ts
  | .app f a => hasEscapingBound scope f || hasEscapingBound scope a
  | .qualified c t => hasEscapingBound scope c || hasEscapingBound scope t
  | _ => false

def hasEscapingBoundList (scope : Nat) : List VTy → Bool
  | [] => false
  | t :: ts => hasEscapingBound scope t || hasEscapingBoundList scope ts
end

end VA

namespace VB

/-- Real types of the later snapshot (`context.rs`): exactly the
thirteen variants matched exhaustively by `Context::generalize`'s inner
`go` (no `Constraint`, no `Qualified`; rows appear as
`Empty`/`Extend`/`Row`, and arrows carry an effect component). -/
inductive RTy where
  | typ
  | effect
  | arrow (ty effs body : RTy)
  | forallR (name : String) (kind : RTy) (body : RTy)
  | hole (h : Nat)
  | variable (q : VA.Qualified)
  | bound (idx : Nat)
  | tuple (ts : List RTy)
  | app (f a : RTy)
  | extend (label : VA.Qualified) (ty rest : RTy)
  | emptyRow
  | row
  | error

mutual
/-- Virtual types of the later snapshot: levels for `Bound`, closures
for `Forall` bodies, arrows with an effect component (`Pi { ty, effs,
body }` as used by `Context::as_function`). -/
inductive VTy where
  | typ
  | effect
  | arrow (ty effs body : VTy)
  | forallV (name : String) (kind : VTy) (cenv : EnvB) (cbody : RTy)
  | hole (h : Nat)
  | variable (q : VA.Qualified)
  | bound (lvl : Nat)
  | tuple (ts : List VTy)
  | app (f a : VTy)
  | extend (label : VA.Qualified) (ty rest : VTy)
  | emptyRow
  | row
  | error

/-- Typing environment of the later snapshot, with the kind stack needed
by the three-argument `Closure::apply`. -/
inductive EnvB where
  | mk (names : List (Option String)) (types : List VTy) (kinds : List VTy) (lvl : Nat)
end

/-- Hole cell states of the later snapshot (`HoleInner` with `Row`).
In the Rust sources the Real view obtained by quotation has `Hole<Real>`
cells; following the spec's reading that an unresolved hole "quotes as
`Hole(same-cell)`", the model keeps one shared store, so a cell written
by `generalize`'s Real-side `go` holds a Real payload (`filledRH`). -/
inductive HoleInnerB where
  | emptyH (name : String) (kind : VTy) (lvl : Nat)
  | rowH (name : String) (lvl : Nat) (lacks : List VA.Qualified)
  | filledH (t : VTy)
  | filledRH (t : RTy)

abbrev StoreB := List HoleInnerB

def EnvB.names : EnvB → List (Option String)
  | .mk n _ _ _ => n

def EnvB.types : EnvB → List VTy
  | .mk _ t _ _ => t

def EnvB.kinds : EnvB → List VTy
  | .mk _ _ k _ => k

def EnvB.lvl : EnvB → Nat
  | .mk _ _ _ l => l

/-- `Env::add` of this snapshot: pushes `Bound(level)` as the binder's
type. -/
def envAddB (e : EnvB) (name : Option String) (kind : VTy) : EnvB :=
  .mk (name :: e.names) (.bound e.lvl :: e.types) (kind :: e.kinds) (e.lvl + 1)

/-- `Env::define` of this snapshot: pushes a concrete type. -/
def envDefineB (e : EnvB) (name : Option String) (ty kind : VTy) : EnvB :=
  .mk (name :: e.names) (ty :: e.types) (kind :: e.kinds) (e.lvl + 1)

/-- `Type::is_row` as used by `Context::instantiate` (the kind that
classifies effect rows). -/
def isRow : VTy → Bool
  | .row => true
  | _ => false

/-- `Type::<Virtual>::deref` of this snapshot: walks `Filled` chains of
Virtual payloads; a cell holding a Real payload belongs to the quoted
view and is never dereferenced by the Rust Virtual-side code, so the
model gets stuck (`none`) there. -/
def derefB : Nat → VTy → StoreB → Option VTy
  | 0, _, _ => none
  | f + 1, t, σ =>
    match t with
    | .hole h =>
      match σ[h]? with
      | some (.filledH u) => derefB f u σ
      | some (.filledRH _) => none
      | _ => some t
    | _ => some t

mutual
/-- Evaluation Real→Virtual for the later snapshot.  Modelled from the
spec (§4.1): `Forall` captures the env in a closure, `Bound(i)` resolves
to `env.types[i]`, the row constructors recurse structurally. -/
def evalB : RTy → EnvB → VTy
  | .typ, _ => .typ
  | .effect, _ => .effect
  | .arrow ty effs body, e => .arrow (evalB ty e) (evalB effs e) (evalB body e)
  | .forallR n k b, e => .forallV n (evalB k e) e b
  | .hole h, _ => .hole h
  | .variable q, _ => .variable q
  | .bound i, e => (e.types[i]?).getD .error
  | .tuple ts, e => .tuple (evalListB ts e)
  | .app f a, e => .app (evalB f e) (evalB a e)
  | .extend l ty rest, e => .extend l (evalB ty e) (evalB rest e)
  | .emptyRow, _ => .emptyRow
  | .row, _ => .row
  | .error, _ => .error

def evalListB : List RTy → EnvB → List VTy
  | [], _ => []
  | t :: ts, e => evalB t e :: evalListB ts e
end

/-- `Closure::apply` of this snapshot (three arguments, as called by
`Context::instantiate`): evaluate the body under `env.define`. -/
def applyB (cenv : EnvB) (body : RTy) (name : Option String) (arg kind : VTy) : VTy :=
  evalB body (envDefineB cenv name arg kind)

mutual
/-- Quotation Virtual→Real for the later snapshot, modelled from the
spec (§4.1) exactly as `VA.quoteA`: `Filled` holes are forced, `Empty`
and `Row` holes quote as the same cell, closures are run on an abstract
`Bound(current-level)`. -/
def quoteB : Nat → Nat → VTy → StoreB → Option RTy
  | 0, _, _, _ => none
  | f + 1, lvl, v, σ =>
    match v with
    | .typ => some .typ
    | .effect => some .effect
    | .arrow ty effs body => do
        pure (.arrow (← quoteB f lvl ty σ) (← quoteB f lvl effs σ) (← quoteB f lvl body σ))
    | .forallV n k cenv cb => do
        let kq ← quoteB f lvl k σ
        let bq ← quoteB f (lvl + 1) (evalB cb (envAddB cenv none (.bound lvl))) σ
        pure (.forallR n kq bq)
    | .hole h =>
      match σ[h]? with
      | some (.filledH u) => quoteB f lvl u σ
      | some (.filledRH _) => none
      | _ => some (.hole h)
    | .variable q => some (.variable q)
    | .bound l => if l < lvl then some (.bound (lvl - l - 1)) else none
    | .tuple ts => do pure (.tuple (← quoteListB f lvl ts σ))
    | .app g a => do pure (.app (← quoteB f lvl g σ) (← quoteB f lvl a σ))
    | .extend lab ty rest => do
        pure (.extend lab (← quoteB f lvl ty σ) (← quoteB f lvl rest σ))
    | .emptyRow => some .emptyRow
    | .row => some .row
    | .error => some .error

def quoteListB : Nat → Nat → List VTy → StoreB → Option (List RTy)
  | 0, _, _, _ => none
  | _ + 1, _, [], _ => some []
  | f + 1, lvl, v :: vs, σ => do pure ((← quoteB f lvl v σ) :: (← quoteListB f lvl vs σ))
end

/-- `Context::instantiate` (`context.rs` 104-121): after deref, one
leading `Forall` is peeled by applying the closure body to a fresh
argument — a fresh row hole with empty lack-set when the binder's kind
is the row kind, otherwise a fresh `Empty` hole at the binder's kind,
both named after the binder and at the env's level; any other type is
returned unchanged (the original, not its deref). -/
def instantiateB (f : Nat) (env : EnvB) (ty : VTy) (σ : StoreB) : Option (VTy × StoreB) := do
  match ← derefB f ty σ with
  | .forallV n k cenv cb =>
      if isRow k then
        pure (applyB cenv cb (some n) (.hole σ.length) k, σ ++ [.rowH n env.lvl []])
      else
        pure (applyB cenv cb (some n) (.hole σ.length) k, σ ++ [.emptyH n k env.lvl])
  | _ => pure (ty, σ)

mutual
/-- The inner `go` of `Context::generalize` (`context.rs` 125-171): a
Real-side walk that, at every `Empty` hole, pushes `(name, kind)` onto
the collected variables and destructively fills the cell with
`Bound(Index(len - 1 + level))` — with no inspection of the hole's
stored level (the third payload is matched with `_`); `Row` holes are
collected with `Row` as their kind; `Filled` cells are traversed.
`level` is incremented under `Forall` bodies and arrow codomains. -/
def goB : Nat → Nat → RTy → List (String × VTy) → StoreB →
    Option (List (String × VTy) × StoreB)
  | 0, _, _, _, _ => none
  | f + 1, level, t, vars, σ =>
    match t with
    | .arrow ty effs body => do
        let (v1, σ1) ← goB f level ty vars σ
        let (v2, σ2) ← goB f level effs v1 σ1
        goB f (level + 1) body v2 σ2
    | .forallR _ k b => do
        let (v1, σ1) ← goB f level k vars σ
        goB f (level + 1) b v1 σ1
    | .hole h =>
        match σ[h]? with
        | some (.emptyH n k _) =>
            some (vars ++ [(n, k)], σ.set h (.filledRH (.bound (vars.length + level))))
        | some (.rowH n _ _) =>
            some (vars ++ [(n, .row)], σ.set h (.filledRH (.bound (vars.length + level))))
        | some (.filledRH u) => goB f level u vars σ
        | _ => none
    | .tuple ts => goListB f level ts vars σ
    | .app g a => do
        let (v1, σ1) ← goB f level g vars σ
        goB f level a v1 σ1
    | .extend _ ty rest => do
        let (v1, σ1) ← goB f level ty vars σ
        goB f level rest v1 σ1
    | _ => some (vars, σ)

def goListB : Nat → Nat → List RTy → List (String × VTy) → StoreB →
    Option (List (String × VTy) × StoreB)
  | 0, _, _, _, _ => none
  | _ + 1, _, [], vars, σ => some (vars, σ)
  | f + 1, level, t :: ts, vars, σ => do
      let (v1, σ1) ← goB f level t vars σ
      goListB f level ts v1 σ1
end

/-- `Context::generalize` (`context.rs` 124-188): quote at the env's
level, run `go`, wrap one `Forall` per collected variable by a left
fold (each collected variable wraps the previous result), and evaluate
back to Virtual.  In the Rust snapshot the collected kinds are already
Real because quotation converts the cells; under the spec's same-cell
reading they are Virtual here and are quoted at the fold. -/
def generalizeB (f : Nat) (env : EnvB) (ty : VTy) (σ : StoreB) : Option (VTy × StoreB) := do
  let real ← quoteB f env.lvl ty σ
  let (vars, σ1) ← goB f env.lvl real [] σ
  let wrapped ← vars.foldlM (fun rest p => do
      let kq ← quoteB f env.lvl p.2 σ1
      pure (RTy.forallR p.1 kq rest)) real
  pure (evalB wrapped env, σ1)

/-- Head test: is the Virtual type a `Forall`? -/
def isForallHeadB : VTy → Bool
  | .forallV _ _ _ _ => true
  | _ => false

/-- The empty environment of the later snapshot. -/
def emptyEnvB : EnvB := .mk [] [] [] 0

end VB

namespace VA

/-- Unfolding equation for `derefA` at positive fuel. -/
theorem derefA_succ (f : Nat) (t : VTy) (σ : StoreA) :
    derefA (f + 1) t σ =
      (match t with
      | .hole h =>
        match σ[h]? with
        | some (.filledH u) => derefA f u σ
        | _ => some t
      | _ => some t) := by
  rw [derefA.eq_def] <;> rfl

/-- Unfolding equation for `occursA` at positive fuel. -/
theorem occursA_succ (f : Nat) (env : EnvT) (scope hole : Nat) (t : VTy) (σ : StoreA) :
    occursA (f + 1) env scope hole t σ =
      (do
      match ← derefA f t σ with
      | .arrow d c => seqE (occursA f env scope hole d σ) (occursA f env scope hole c σ)
      | .forallV _ _ cenv cb =>
          occursA f env scope hole (applyLocalA cenv cb none (.bound env.lvl)) σ
      | .hole h => if h = hole then pure (.error .infiniteType) else pure (.ok ())
      | .bound l => if scope ≤ l then pure (.error .escapingScope) else pure (.ok ())
      | .tuple ts => occursListA f env scope hole ts σ
      | .app g a => seqE (occursA f env scope hole g σ) (occursA f env scope hole a σ)
      | _ => pure (.ok ())) := by
  rw [occursA.eq_def] <;> rfl

/-- Unfolding equation for `occursListA` on the empty list. -/
theorem occursListA_nil (f : Nat) (env : EnvT) (scope hole : Nat) (σ : StoreA) :
    occursListA (f + 1) env scope hole [] σ = some (.ok ()) := by
  rw [occursListA.eq_def] <;> rfl

/-- Unfolding equation for `occursListA` on a cons. -/
theorem occursListA_cons (f : Nat) (env : EnvT) (scope hole : Nat) (x : VTy) (xs : List VTy)
    (σ : StoreA) :
    occursListA (f + 1) env scope hole (x :: xs) σ =
      seqE (occursA f env scope hole x σ) (occursListA f env scope hole xs σ) := by
  rw [occursListA.eq_def] <;> rfl

/-- Unfolding equation for `quoteA` at positive fuel. -/
theorem quoteA_succ (f : Nat) (lvl : Nat) (v : VTy) (σ : StoreA) :
    quoteA (f + 1) lvl v σ =
      (match v with
      | .typ => some .typ
      | .constraint => some .constraint
      | .arrow d c => do pure (.arrow (← quoteA f lvl d σ) (← quoteA f lvl c σ))
      | .forallV n k cenv cb => do
          let kq ← quoteA f lvl k σ
          let bq ← quoteA f (lvl + 1) (applyLocalA cenv cb none (.bound lvl)) σ
          pure (.forallR n kq bq)
      | .hole h =>
        match σ[h]? with
        | some (.filledH u) => quoteA f lvl u σ
        | _ => some (.hole h)
      | .variable q => some (.variable q)
      | .bound l => if l < lvl then some (.bound (lvl - l - 1)) else none
      | .tuple ts => do pure (.tuple (← quoteListA f lvl ts σ))
      | .app g a => do pure (.app (← quoteA f lvl g σ) (← quoteA f lvl a σ))
      | .qualified c t => do pure (.qualified (← quoteA f lvl c σ) (← quoteA f lvl t σ))
      | .error => some .error) := by
  rw [quoteA.eq_def] <;> rfl

/-- Unfolding equation for `quoteListA` on the empty list. -/
theorem quoteListA_nil (f : Nat) (lvl : Nat) (σ : StoreA) :
    quoteListA (f + 1) lvl [] σ = some [] := by
  rw [quoteListA.eq_def] <;> rfl

/-- Unfolding equation for `quoteListA` on a cons. -/
theorem quoteListA_cons (f : Nat) (lvl : Nat) (v : VTy) (vs : List VTy) (σ : StoreA) :
    quoteListA (f + 1) lvl (v :: vs) σ =
      (do pure ((← quoteA f lvl v σ) :: (← quoteListA f lvl vs σ))) := by
  rw [quoteListA.eq_def] <;> rfl

/-- Unfolding equation for `unifyA` at positive fuel. -/
theorem unifyA_succ (f : Nat) (env : EnvT) (left right : VTy) (st : StateA) :
    unifyA (f + 1) env left right st =
      (do
      let l ← derefA f left st.store
      let r ← derefA f right st.store
      match l, r with
      | .tuple xs, .tuple ys =>
          if xs.length = ys.length then unifyPairsA f env xs ys st
          else mismatchA f env left right st
      | .app f1 a1, .app f2 a2 =>
          seqA (unifyA f env f1 f2 st) (fun st1 => unifyA f env a1 a2 st1)
      | .qualified c1 t1, .qualified c2 t2 =>
          seqA (unifyA f env c1 c2 st) (fun st1 => unifyA f env t1 t2 st1)
      | .hole n, .hole m =>
          if n = m then pure (.ok (), st) else unifyHoleA f env n r st
      | .hole m, _ => unifyHoleA f env m r st
      | _, .hole m => unifyHoleA f env m l st
      | .bound x, .bound y =>
          if x = y then pure (.ok (), st) else mismatchA f env left right st
      | .variable x, .variable y =>
          if x = y then pure (.ok (), st) else mismatchA f env left right st
      | .typ, .typ => pure (.ok (), st)
      | .constraint, .constraint => pure (.ok (), st)
      | .error, _ => pure (.ok (), st)
      | _, .error => pure (.ok (), st)
      | _, _ => mismatchA f env left right st) := by
  rw [unifyA.eq_def] <;> rfl

/-- Unfolding equation for `unifyPairsA` on two empty lists. -/
theorem unifyPairsA_nil (f : Nat) (env : EnvT) (ys : List VTy) (st : StateA) :
    unifyPairsA (f + 1) env [] ys st = some (.ok (), st) := by
  rw [unifyPairsA.eq_def] <;> rfl

/-- Unfolding equation for `unifyPairsA` when the right list is empty. -/
theorem unifyPairsA_nilr (f : Nat) (env : EnvT) (x : VTy) (xs : List VTy) (st : StateA) :
    unifyPairsA (f + 1) env (x :: xs) [] st = some (.ok (), st) := by
  rw [unifyPairsA.eq_def] <;> rfl

/-- Unfolding equation for `unifyPairsA` on two conses. -/
theorem unifyPairsA_cons (f : Nat) (env : EnvT) (x : VTy) (xs : List VTy) (y : VTy)
    (ys : List VTy) (st : StateA) :
    unifyPairsA (f + 1) env (x :: xs) (y :: ys) st =
      seqA (unifyA f env x y st) (fun st1 => unifyPairsA f env xs ys st1) := by
  rw [unifyPairsA.eq_def] <;> rfl

/-- Unfolding equation for `unifyHoleA` at positive fuel. -/
theorem unifyHoleA_succ (f : Nat) (env : EnvT) (hole : Nat) (right : VTy) (st : StateA) :
    unifyHoleA (f + 1) env hole right st =
      (match st.store[hole]? with
      | some (.emptyH _ _ lvl) => do
          match ← derefA f right st.store with
          | .hole h1 =>
              if hole = h1 then pure (.ok (), st)
              else unifyHoleFillA f env hole lvl right st
          | _ => unifyHoleFillA f env hole lvl right st
      | some (.filledH u) => unifyA f env u right st
      | none => none) := by
  rw [unifyHoleA.eq_def] <;> rfl

/-- Unfolding equation for `subsumesGoA` at positive fuel. -/
theorem subsumesGoA_succ (f : Nat) (env : EnvT) (left right : VTy) (st : StateA) :
    subsumesGoA (f + 1) env left right st =
      (do
      let l ← derefA f left st.store
      let r ← derefA f right st.store
      match l, r with
      | .hole n, rr =>
          if isEmptyHoleA st.store n then subHoleTypeA f env n rr st
          else
            match rr with
            | .hole m =>
                if isEmptyHoleA st.store m then subTypeHoleA f env l m st
                else unifyA f env l rr st
            | .forallV _ _ fcenv fcb =>
                subsumesGoA f (envAdd env none (.bound env.lvl)) l
                  (applyLocalA fcenv fcb none (.bound env.lvl)) st
            | _ => unifyA f env l rr st
      | ll, .hole m =>
          if isEmptyHoleA st.store m then subTypeHoleA f env ll m st
          else
            match ll with
            | .forallV ln lk lcenv lcb => do
                let (inst, st1) ← instantiateStA f env (.forallV ln lk lcenv lcb) st
                subsumesGoA f env inst r st1
            | _ => unifyA f env ll r st
      | .arrow m1 m2, .arrow n1 n2 =>
          seqA (subsumesGoA f env n1 m1 st) (fun st1 => subsumesGoA f env m2 n2 st1)
      | ll, .forallV _ _ fcenv fcb =>
          subsumesGoA f (envAdd env none (.bound env.lvl)) ll
            (applyLocalA fcenv fcb none (.bound env.lvl)) st
      | .forallV ln lk lcenv lcb, rr => do
          let (inst, st1) ← instantiateStA f env (.forallV ln lk lcenv lcb) st
          subsumesGoA f env inst rr st1
      | ll, rr => unifyA f env ll rr st) := by
  rw [subsumesGoA.eq_def] <;> rfl

/-- Unfolding equation for `subHoleTypeA` at positive fuel. -/
theorem subHoleTypeA_succ (f : Nat) (env : EnvT) (left : Nat) (right : VTy) (st : StateA) :
    subHoleTypeA (f + 1) env left right st =
      (do
      match ← derefA f right st.store with
      | .forallV fn _ fcenv fcb =>
          subHoleTypeA f (envAdd env (some fn) (.bound env.lvl)) left
            (applyLocalA fcenv fcb none (.bound env.lvl)) st
      | .arrow a b =>
          match st.store[left]? with
          | some (.emptyH _ kind _) => do
              let (ha, st1) := ctxHoleIdA env kind st
              let (hb, st2) := ctxHoleIdA env kind st1
              let st3 :=
                { st2 with store := st2.store.set left (.filledH (.arrow (.hole ha) (.hole hb))) }
              seqA (subTypeHoleA f env a ha st3) (fun st4 => subHoleTypeA f env hb b st4)
          | _ => none
      | _ => unifyHoleA f env left right st) := by
  rw [subHoleTypeA.eq_def] <;> rfl

/-- Unfolding equation for `subTypeHoleA` at positive fuel. -/
theorem subTypeHoleA_succ (f : Nat) (env : EnvT) (left : VTy) (right : Nat) (st : StateA) :
    subTypeHoleA (f + 1) env left right st =
      (do
      match ← derefA f left st.store with
      | .forallV ln lk lcenv lcb => do
          let (inst, st1) ← instantiateStA f env (.forallV ln lk lcenv lcb) st
          subTypeHoleA f env inst right st1
      | .arrow a b =>
          match st.store[right]? with
          | some (.emptyH _ kind _) => do
              let (ha, st1) := ctxHoleIdA env kind st
              let (hb, st2) := ctxHoleIdA env kind st1
              let st3 :=
                { st2 with store := st2.store.set right (.filledH (.arrow (.hole ha) (.hole hb))) }
              seqA (subHoleTypeA f env ha a st3) (fun st4 => subTypeHoleA f env b hb st4)
          | _ => none
      | _ => unifyHoleA f env right left st) := by
  rw [subTypeHoleA.eq_def] <;> rfl

end VA

namespace VB

/-- Unfolding equation for `derefB` at positive fuel. -/
theorem derefB_succ (f : Nat) (t : VTy) (σ : StoreB) :
    derefB (f + 1) t σ =
      (match t with
      | .hole h =>
        match σ[h]? with
        | some (.filledH u) => derefB f u σ
        | some (.filledRH _) => none
        | _ => some t
      | _ => some t) := by
  rw [derefB.eq_def] <;> rfl

/-- Unfolding equation for `goB` at positive fuel. -/
theorem goB_succ (f level : Nat) (t : RTy) (vars : List (String × VTy)) (σ : StoreB) :
    goB (f + 1) level t vars σ =
      (match t with
      | .arrow ty effs body => do
          let (v1, σ1) ← goB f level ty vars σ
          let (v2, σ2) ← goB f level effs v1 σ1
          goB f (level + 1) body v2 σ2
      | .forallR _ k b => do
          let (v1, σ1) ← goB f level k vars σ
          goB f (level + 1) b v1 σ1
      | .hole h =>
          match σ[h]? with
          | some (.emptyH n k _) =>
              some (vars ++ [(n, k)], σ.set h (.filledRH (.bound (vars.length + level))))
          | some (.rowH n _ _) =>
              some (vars ++ [(n, .row)], σ.set h (.filledRH (.bound (vars.length + level))))
          | some (.filledRH u) => goB f level u vars σ
          | _ => none
      | .tuple ts => goListB f level ts vars σ
      | .app g a => do
          let (v1, σ1) ← goB f level g vars σ
          goB f level a v1 σ1
      | .extend _ ty rest => do
          let (v1, σ1) ← goB f level ty vars σ
          goB f level rest v1 σ1
      | _ => some (vars, σ)) := by
  rw [goB.eq_def] <;> rfl

end VB

namespace VA

mutual
/-- Well-scopedness of a Real type at a level: every `Bound` index is
in scope, counting one extra binder under each `Forall` body. -/
def WfR : Nat → RTy → Bool
  | _, .typ => true
  | _, .constraint => true
  | lvl, .arrow d c => WfR lvl d && WfR lvl c
  | lvl, .forallR _ k b => WfR lvl k && WfR (lvl + 1) b
  | _, .hole _ => true
  | _, .variable _ => true
  | lvl, .bound i => decide (i < lvl)
  | lvl, .tuple ts => WfRList lvl ts
  | lvl, .app g a => WfR lvl g && WfR lvl a
  | lvl, .qualified c t => WfR lvl c && WfR lvl t
  | _, .error => true

def WfRList : Nat → List RTy → Bool
  | _, [] => true
  | lvl, t :: ts => WfR lvl t && WfRList lvl ts
end

mutual
/-- No hole occurring in the Real type is `Filled` in the store (its
quotation performs no forcing). -/
def unforcedR : StoreA → RTy → Bool
  | _, .typ => true
  | _, .constraint => true
  | σ, .arrow d c => unforcedR σ d && unforcedR σ c
  | σ, .forallR _ k b => unforcedR σ k && unforcedR σ b
  | σ, .hole h =>
    match σ[h]? with
    | some (.filledH _) => false
    | _ => true
  | _, .variable _ => true
  | _, .bound _ => true
  | σ, .tuple ts => unforcedRList σ ts
  | σ, .app g a => unforcedR σ g && unforcedR σ a
  | σ, .qualified c t => unforcedR σ c && unforcedR σ t
  | _, .error => true

def unforcedRList : StoreA → List RTy → Bool
  | _, [] => true
  | σ, t :: ts => unforcedR σ t && unforcedRList σ ts
end

/-- An environment is the identity environment at a level when binder
`i` (counted from the front) carries the abstract `Bound(lvl - 1 - i)`
— exactly the shape produced by repeated `Env::add`. -/
def IdLike (E : EnvT) (lvl : Nat) : Prop :=
  E.lvl = lvl ∧ ∀ i, i < lvl → E.types[i]? = some (.bound (lvl - 1 - i))

/-- The canonical identity environment: `lvl` repetitions of
`Env::add`. -/
def idEnvA : Nat → EnvT
  | 0 => emptyEnvA
  | n + 1 => envAdd (idEnvA n) none .typ

/-- `Env::add` extends an identity environment to an identity
environment one level up. -/
theorem IdLike_envAdd (E : EnvT) (lvl : Nat) (name : Option String) (k : VTy)
    (h : IdLike E lvl) : IdLike (envAdd E name k) (lvl + 1) := by
  obtain ⟨hl, ht⟩ := h
  cases E with
  | mk ns ts ks vs l =>
    simp only [EnvT.lvl] at hl
    simp only [EnvT.types] at ht
    subst hl
    constructor
    · rfl
    · intro i hi
      have hty : (envAdd (EnvT.mk ns ts ks vs l) name k).types = .bound l :: ts := rfl
      rw [hty]
      cases i with
      | zero =>
        rw [List.getElem?_cons_zero]
        have h0 : l + 1 - 1 - 0 = l := by omega
        rw [h0]
      | succ i =>
        have hlt : i < l := by omega
        rw [List.getElem?_cons_succ]
        have h1 : l + 1 - 1 - (i + 1) = l - 1 - i := by omega
        rw [h1]
        exact ht i hlt

/-- `idEnvA lvl` is an identity environment at `lvl`. -/
theorem idEnvA_IdLike (lvl : Nat) : IdLike (idEnvA lvl) lvl := by
  induction lvl with
  | zero =>
    constructor
    · rfl
    · intro i hi; omega
  | succ n ih => exact IdLike_envAdd _ _ none .typ ih

/-- Per-constructor unfolding equations for `quoteA` (definitional,
since the fuel recursion is structural). -/
theorem quoteA_typ (f lvl : Nat) (σ : StoreA) : quoteA (f + 1) lvl .typ σ = some .typ := rfl

/-- Unfolding `quoteA` on `Constraint`. -/
theorem quoteA_constraint (f lvl : Nat) (σ : StoreA) :
    quoteA (f + 1) lvl .constraint σ = some .constraint := rfl

/-- Unfolding `quoteA` on an arrow. -/
theorem quoteA_arrow (f lvl : Nat) (d c : VTy) (σ : StoreA) :
    quoteA (f + 1) lvl (.arrow d c) σ =
      (quoteA f lvl d σ >>= fun dq => quoteA f lvl c σ >>= fun cq =>
        pure (.arrow dq cq)) := rfl

/-- Unfolding `quoteA` on a `Forall`. -/
theorem quoteA_forall (f lvl : Nat) (n : String) (k : VTy) (ce : EnvT) (cb : RTy)
    (σ : StoreA) :
    quoteA (f + 1) lvl (.forallV n k ce cb) σ =
      (quoteA f lvl k σ >>= fun kq =>
        quoteA f (lvl + 1) (applyLocalA ce cb none (.bound lvl)) σ >>= fun bq =>
        pure (.forallR n kq bq)) := rfl

/-- Unfolding `quoteA` on a hole. -/
theorem quoteA_hole (f lvl : Nat) (h : Nat) (σ : StoreA) :
    quoteA (f + 1) lvl (.hole h) σ =
      (match σ[h]? with
      | some (.filledH u) => quoteA f lvl u σ
      | _ => some (.hole h)) := rfl

/-- Unfolding `quoteA` on a named variable. -/
theorem quoteA_variable (f lvl : Nat) (q : Qualified) (σ : StoreA) :
    quoteA (f + 1) lvl (.variable q) σ = some (.variable q) := rfl

/-- Unfolding `quoteA` on a bound level. -/
theorem quoteA_bound (f lvl l : Nat) (σ : StoreA) :
    quoteA (f + 1) lvl (.bound l) σ =
      (if l < lvl then some (.bound (lvl - l - 1)) else none) := rfl

/-- Unfolding `quoteA` on a tuple. -/
theorem quoteA_tuple (f lvl : Nat) (ts : List VTy) (σ : StoreA) :
    quoteA (f + 1) lvl (.tuple ts) σ =
      (quoteListA f lvl ts σ >>= fun rs => pure (.tuple rs)) := rfl

/-- Unfolding `quoteA` on an application. -/
theorem quoteA_app (f lvl : Nat) (g a : VTy) (σ : StoreA) :
    quoteA (f + 1) lvl (.app g a) σ =
      (quoteA f lvl g σ >>= fun gq => quoteA f lvl a σ >>= fun aq =>
        pure (.app gq aq)) := rfl

/-- Unfolding `quoteA` on a qualified type. -/
theorem quoteA_qualified (f lvl : Nat) (c t : VTy) (σ : StoreA) :
    quoteA (f + 1) lvl (.qualified c t) σ =
      (quoteA f lvl c σ >>= fun cq => quoteA f lvl t σ >>= fun tq =>
        pure (.qualified cq tq)) := rfl

/-- Unfolding `quoteA` on `Error`. -/
theorem quoteA_error (f lvl : Nat) (σ : StoreA) :
    quoteA (f + 1) lvl .error σ = some .error := rfl

/-- Unfolding `quoteListA` on nil at positive fuel. -/
theorem quoteListA_nil2 (f lvl : Nat) (σ : StoreA) :
    quoteListA (f + 1) lvl [] σ = some [] := rfl

/-- Unfolding `quoteListA` on a cons at positive fuel. -/
theorem quoteListA_cons2 (f lvl : Nat) (v : VTy) (vs : List VTy) (σ : StoreA) :
    quoteListA (f + 1) lvl (v :: vs) σ =
      (quoteA f lvl v σ >>= fun q => quoteListA f lvl vs σ >>= fun qs =>
        pure (q :: qs)) := rfl

/-- Larger fuel preserves a successful quotation. -/
theorem quoteA_mono (f : Nat) :
    (∀ lvl v σ r, quoteA f lvl v σ = some r → quoteA (f + 1) lvl v σ = some r) ∧
    (∀ lvl vs σ rs, quoteListA f lvl vs σ = some rs → quoteListA (f + 1) lvl vs σ = some rs) := by
  induction f with
  | zero =>
    constructor
    · intro lvl v σ r h; rw [quoteA.eq_def] at h; cases h
    · intro lvl vs σ rs h; rw [quoteListA.eq_def] at h; cases h
  | succ f ih =>
    constructor
    · intro lvl v σ r h
      cases v
      case arrow d c =>
        rw [quoteA_arrow] at h
        rw [quoteA_arrow]
        cases hd : quoteA f lvl d σ with
        | none => rw [hd, optBindNone] at h; cases h
        | some dq =>
          rw [hd, optBindSome] at h
          cases hc : quoteA f lvl c σ with
          | none => rw [hc, optBindNone] at h; cases h
          | some cq =>
            rw [hc, optBindSome] at h
            rw [ih.1 _ _ _ _ hd, optBindSome, ih.1 _ _ _ _ hc, optBindSome]
            exact h
      case forallV nm k ce cb =>
        rw [quoteA_forall] at h
        rw [quoteA_forall]
        cases hk : quoteA f lvl k σ with
        | none => rw [hk, optBindNone] at h; cases h
        | some kq =>
          rw [hk, optBindSome] at h
          cases hb : quoteA f (lvl + 1) (applyLocalA ce cb none (.bound lvl)) σ with
          | none => rw [hb, optBindNone] at h; cases h
          | some bq =>
            rw [hb, optBindSome] at h
            rw [ih.1 _ _ _ _ hk, optBindSome, ih.1 _ _ _ _ hb, optBindSome]
            exact h
      case hole hid =>
        rw [quoteA_hole] at h
        rw [quoteA_hole]
        cases hc : σ[hid]? with
        | none => rw [hc] at h; exact h
        | some cell =>
          cases cell with
          | emptyH a b c => rw [hc] at h; exact h
          | filledH u => rw [hc] at h; exact ih.1 _ _ _ _ h
      case bound l =>
        rw [quoteA_bound] at h
        rw [quoteA_bound]
        split at h
        · rename_i hlt; rw [if_pos hlt]; exact h
        · cases h
      case tuple ts =>
        rw [quoteA_tuple] at h
        rw [quoteA_tuple]
        cases hts : quoteListA f lvl ts σ with
        | none => rw [hts, optBindNone] at h; cases h
        | some rs1 =>
          rw [hts, optBindSome] at h
          rw [ih.2 _ _ _ _ hts, optBindSome]
          exact h
      case app g a =>
        rw [quoteA_app] at h
        rw [quoteA_app]
        cases hg : quoteA f lvl g σ with
        | none => rw [hg, optBindNone] at h; cases h
        | some gq =>
          rw [hg, optBindSome] at h
          cases ha : quoteA f lvl a σ with
          | none => rw [ha, optBindNone] at h; cases h
          | some aq =>
            rw [ha, optBindSome] at h
            rw [ih.1 _ _ _ _ hg, optBindSome, ih.1 _ _ _ _ ha, optBindSome]
            exact h
      case qualified c t =>
        rw [quoteA_qualified] at h
        rw [quoteA_qualified]
        cases hc : quoteA f lvl c σ with
        | none => rw [hc, optBindNone] at h; cases h
        | some cq =>
          rw [hc, optBindSome] at h
          cases ht : quoteA f lvl t σ with
          | none => rw [ht, optBindNone] at h; cases h
          | some tq =>
            rw [ht, optBindSome] at h
            rw [ih.1 _ _ _ _ hc, optBindSome, ih.1 _ _ _ _ ht, optBindSome]
            exact h
      all_goals exact h
    · intro lvl vs σ rs h
      cases vs with
      | nil => exact h
      | cons v vs =>
        rw [quoteListA_cons2] at h
        rw [quoteListA_cons2]
        cases hv : quoteA f lvl v σ with
        | none => rw [hv, optBindNone] at h; cases h
        | some vq =>
          rw [hv, optBindSome] at h
          cases hvs : quoteListA f lvl vs σ with
          | none => rw [hvs, optBindNone] at h; cases h
          | some rs1 =>
            rw [hvs, optBindSome] at h
            rw [ih.1 _ _ _ _ hv, optBindSome, ih.2 _ _ _ _ hvs, optBindSome]
            exact h

/-- Fuel weakening, iterated. -/
theorem quoteA_mono_le (f g : Nat) (hfg : f ≤ g) (lvl : Nat) (v : VTy) (σ : StoreA)
    (r : RTy) (h : quoteA f lvl v σ = some r) : quoteA g lvl v σ = some r := by
  induction g with
  | zero =>
    have hf0 : f = 0 := by omega
    subst hf0
    exact h
  | succ g ih =>
    rcases Nat.lt_or_ge f (g + 1) with hlt | hge
    · exact (quoteA_mono g).1 lvl v σ r (ih (by omega))
    · have : f = g + 1 := by omega
      subst this
      exact h

/-- Fuel weakening for list quotation, iterated. -/
theorem quoteListA_mono_le (f g : Nat) (hfg : f ≤ g) (lvl : Nat) (vs : List VTy)
    (σ : StoreA) (rs : List RTy) (h : quoteListA f lvl vs σ = some rs) :
    quoteListA g lvl vs σ = some rs := by
  induction g with
  | zero =>
    have hf0 : f = 0 := by omega
    subst hf0
    exact h
  | succ g ih =>
    rcases Nat.lt_or_ge f (g + 1) with hlt | hge
    · exact (quoteA_mono g).2 lvl vs σ rs (ih (by omega))
    · have : f = g + 1 := by omega
      subst this
      exact h

/-- Every Real type has positive size. -/
theorem sizeR_pos (t : RTy) : 1 ≤ sizeR t := by
  cases t <;> simp only [sizeR] <;> omega

/-- Every Real type list has positive size. -/
theorem sizeRList_pos (ts : List RTy) : 1 ≤ sizeRList ts := by
  cases ts <;> simp only [sizeRList] <;> omega

/-- Splitting a true Boolean conjunction. -/
theorem andSplit {a b : Bool} (h : (a && b) = true) : a = true ∧ b = true := by
  cases a <;> cases b
  · cases h
  · cases h
  · cases h
  · exact ⟨rfl, rfl⟩

/-- Quotation after evaluation in an identity environment restores a
well-scoped Real type with no `Filled` holes exactly, using the type's
size as fuel: the `quote ∘ eval = id` direction of the normalisation
round trip, with unforcedness making "up to hole forcing" precise. -/
theorem quoteEvalRound (n : Nat) :
    (∀ t lvl σ E, sizeR t ≤ n → WfR lvl t = true → unforcedR σ t = true →
        IdLike E lvl → quoteA (sizeR t) lvl (evalA t E) σ = some t) ∧
    (∀ ts lvl σ E, sizeRList ts ≤ n → WfRList lvl ts = true →
        unforcedRList σ ts = true → IdLike E lvl →
        quoteListA (sizeRList ts) lvl (evalListA ts E) σ = some ts) := by
  induction n with
  | zero =>
    constructor
    · intro t lvl σ E hs hw hu hE
      exact absurd hs (by have := sizeR_pos t; omega)
    · intro ts lvl σ E hs hw hu hE
      exact absurd hs (by have := sizeRList_pos ts; omega)
  | succ n ih =>
    constructor
    · intro t lvl σ E hs hw hu hE
      cases t
      case arrow d c =>
        have hs' : 1 + sizeR d + sizeR c ≤ n + 1 := hs
        have hw' : (WfR lvl d && WfR lvl c) = true := hw
        have hu' : (unforcedR σ d && unforcedR σ c) = true := hu
        obtain ⟨hw1, hw2⟩ := andSplit hw'
        obtain ⟨hu1, hu2⟩ := andSplit hu'
        have hd := ih.1 d lvl σ E (by omega) hw1 hu1 hE
        have hc := ih.1 c lvl σ E (by omega) hw2 hu2 hE
        have hsz : sizeR (RTy.arrow d c) = sizeR d + sizeR c + 1 := by
          have h0 : sizeR (RTy.arrow d c) = 1 + sizeR d + sizeR c := rfl
          omega
        rw [hsz]
        show quoteA (sizeR d + sizeR c + 1) lvl (.arrow (evalA d E) (evalA c E)) σ
          = some (.arrow d c)
        rw [quoteA_arrow]
        rw [quoteA_mono_le (sizeR d) (sizeR d + sizeR c) (by omega) lvl (evalA d E) σ d hd]
        rw [optBindSome]
        rw [quoteA_mono_le (sizeR c) (sizeR d + sizeR c) (by omega) lvl (evalA c E) σ c hc]
        rw [optBindSome]
        rfl
      case forallR nm k b =>
        have hs' : 1 + sizeR k + sizeR b ≤ n + 1 := hs
        have hw' : (WfR lvl k && WfR (lvl + 1) b) = true := hw
        have hu' : (unforcedR σ k && unforcedR σ b) = true := hu
        obtain ⟨hw1, hw2⟩ := andSplit hw'
        obtain ⟨hu1, hu2⟩ := andSplit hu'
        have hk := ih.1 k lvl σ E (by omega) hw1 hu1 hE
        have hb := ih.1 b (lvl + 1) σ (envAdd E none (.bound lvl)) (by omega) hw2 hu2
          (IdLike_envAdd E lvl none (.bound lvl) hE)
        have hsz : sizeR (RTy.forallR nm k b) = sizeR k + sizeR b + 1 := by
          have h0 : sizeR (RTy.forallR nm k b) = 1 + sizeR k + sizeR b := rfl
          omega
        rw [hsz]
        show quoteA (sizeR k + sizeR b + 1) lvl (.forallV nm (evalA k E) E b) σ
          = some (.forallR nm k b)
        rw [quoteA_forall]
        rw [quoteA_mono_le (sizeR k) (sizeR k + sizeR b) (by omega) lvl (evalA k E) σ k hk]
        rw [optBindSome]
        rw [quoteA_mono_le (sizeR b) (sizeR k + sizeR b) (by omega) (lvl + 1)
          (applyLocalA E b none (.bound lvl)) σ b hb]
        rw [optBindSome]
        rfl
      case hole hid =>
        have hu' : (match σ[hid]? with
            | some (HoleInnerA.filledH _) => false
            | _ => true) = true := hu
        show quoteA 1 lvl (.hole hid) σ = some (.hole hid)
        rw [quoteA_hole]
        cases hc : σ[hid]? with
        | none => rfl
        | some cell =>
          cases cell with
          | emptyH a b c => rfl
          | filledH u => rw [hc] at hu'; cases hu'
      case bound i =>
        have hi : i < lvl := of_decide_eq_true hw
        show quoteA 1 lvl ((E.types[i]?).getD .error) σ = some (.bound i)
        rw [hE.2 i hi]
        show quoteA 1 lvl (.bound (lvl - 1 - i)) σ = some (.bound i)
        rw [quoteA_bound]
        rw [if_pos (show lvl - 1 - i < lvl by omega)]
        have harith : lvl - (lvl - 1 - i) - 1 = i := by omega
        rw [harith]
      case tuple ts =>
        have hs' : 1 + sizeRList ts ≤ n + 1 := hs
        have hts := ih.2 ts lvl σ E (by omega) hw hu hE
        have hsz : sizeR (RTy.tuple ts) = sizeRList ts + 1 := by
          have h0 : sizeR (RTy.tuple ts) = 1 + sizeRList ts := rfl
          omega
        rw [hsz]
        show quoteA (sizeRList ts + 1) lvl (.tuple (evalListA ts E)) σ = some (.tuple ts)
        rw [quoteA_tuple]
        rw [hts]
        rw [optBindSome]
        rfl
      case app g a =>
        have hs' : 1 + sizeR g + sizeR a ≤ n + 1 := hs
        have hw' : (WfR lvl g && WfR lvl a) = true := hw
        have hu' : (unforcedR σ g && unforcedR σ a) = true := hu
        obtain ⟨hw1, hw2⟩ := andSplit hw'
        obtain ⟨hu1, hu2⟩ := andSplit hu'
        have hg := ih.1 g lvl σ E (by omega) hw1 hu1 hE
        have ha := ih.1 a lvl σ E (by omega) hw2 hu2 hE
        have hsz : sizeR (RTy.app g a) = sizeR g + sizeR a + 1 := by
          have h0 : sizeR (RTy.app g a) = 1 + sizeR g + sizeR a := rfl
          omega
        rw [hsz]
        show quoteA (sizeR g + sizeR a + 1) lvl (.app (evalA g E) (evalA a E)) σ
          = some (.app g a)
        rw [quoteA_app]
        rw [quoteA_mono_le (sizeR g) (sizeR g + sizeR a) (by omega) lvl (evalA g E) σ g hg]
        rw [optBindSome]
        rw [quoteA_mono_le (sizeR a) (sizeR g + sizeR a) (by omega) lvl (evalA a E) σ a ha]
        rw [optBindSome]
        rfl
      case qualified c t =>
        have hs' : 1 + sizeR c + sizeR t ≤ n + 1 := hs
        have hw' : (WfR lvl c && WfR lvl t) = true := hw
        have hu' : (unforcedR σ c && unforcedR σ t) = true := hu
        obtain ⟨hw1, hw2⟩ := andSplit hw'
        obtain ⟨hu1, hu2⟩ := andSplit hu'
        have hcq := ih.1 c lvl σ E (by omega) hw1 hu1 hE
        have htq := ih.1 t lvl σ E (by omega) hw2 hu2 hE
        have hsz : sizeR (RTy.qualified c t) = sizeR c + sizeR t + 1 := by
          have h0 : sizeR (RTy.qualified c t) = 1 + sizeR c + sizeR t := rfl
          omega
        rw [hsz]
        show quoteA (sizeR c + sizeR t + 1) lvl (.qualified (evalA c E) (evalA t E)) σ
          = some (.qualified c t)
        rw [quoteA_qualified]
        rw [quoteA_mono_le (sizeR c) (sizeR c + sizeR t) (by omega) lvl (evalA c E) σ c hcq]
        rw [optBindSome]
        rw [quoteA_mono_le (sizeR t) (sizeR c + sizeR t) (by omega) lvl (evalA t E) σ t htq]
        rw [optBindSome]
        rfl
      all_goals rfl
    · intro ts lvl σ E hs hw hu hE
      cases ts with
      | nil => rfl
      | cons t ts =>
        have hs' : 1 + sizeR t + sizeRList ts ≤ n + 1 := hs
        have hw' : (WfR lvl t && WfRList lvl ts) = true := hw
        have hu' : (unforcedR σ t && unforcedRList σ ts) = true := hu
        obtain ⟨hw1, hw2⟩ := andSplit hw'
        obtain ⟨hu1, hu2⟩ := andSplit hu'
        have ht := ih.1 t lvl σ E (by omega) hw1 hu1 hE
        have hts := ih.2 ts lvl σ E (by omega) hw2 hu2 hE
        have hsz : sizeRList (t :: ts) = sizeR t + sizeRList ts + 1 := by
          have h0 : sizeRList (t :: ts) = 1 + sizeR t + sizeRList ts := rfl
          omega
        rw [hsz]
        show quoteListA (sizeR t + sizeRList ts + 1) lvl (evalA t E :: evalListA ts E) σ
          = some (t :: ts)
        rw [quoteListA_cons2]
        rw [quoteA_mono_le (sizeR t) (sizeR t + sizeRList ts) (by omega) lvl (evalA t E) σ t ht]
        rw [optBindSome]
        rw [quoteListA_mono_le (sizeRList ts) (sizeR t + sizeRList ts) (by omega) lvl
          (evalListA ts E) σ ts hts]
        rw [optBindSome]
        rfl

/-- A successful quotation yields a well-scoped Real type none of whose
holes is `Filled` in the store: quotation forces every `Filled` hole it
meets, so its output is inert with respect to further forcing. -/
theorem quoteA_output (f : Nat) :
    (∀ lvl v σ r, quoteA f lvl v σ = some r →
        WfR lvl r = true ∧ unforcedR σ r = true) ∧
    (∀ lvl vs σ rs, quoteListA f lvl vs σ = some rs →
        WfRList lvl rs = true ∧ unforcedRList σ rs = true) := by
  induction f with
  | zero =>
    constructor
    · intro lvl v σ r h; rw [quoteA.eq_def] at h; cases h
    · intro lvl vs σ rs h; rw [quoteListA.eq_def] at h; cases h
  | succ f ih =>
    constructor
    · intro lvl v σ r h
      cases v
      case arrow d c =>
        rw [quoteA_arrow] at h
        cases hd : quoteA f lvl d σ with
        | none => rw [hd, optBindNone] at h; cases h
        | some dq =>
          rw [hd, optBindSome] at h
          cases hc : quoteA f lvl c σ with
          | none => rw [hc, optBindNone] at h; cases h
          | some cq =>
            rw [hc, optBindSome] at h
            cases h
            obtain ⟨hw1, hu1⟩ := ih.1 _ _ _ _ hd
            obtain ⟨hw2, hu2⟩ := ih.1 _ _ _ _ hc
            constructor
            · show (WfR lvl dq && WfR lvl cq) = true
              rw [hw1, hw2]
              rfl
            · show (unforcedR σ dq && unforcedR σ cq) = true
              rw [hu1, hu2]
              rfl
      case forallV nm k ce cb =>
        rw [quoteA_forall] at h
        cases hk : quoteA f lvl k σ with
        | none => rw [hk, optBindNone] at h; cases h
        | some kq =>
          rw [hk, optBindSome] at h
          cases hb : quoteA f (lvl + 1) (applyLocalA ce cb none (.bound lvl)) σ with
          | none => rw [hb, optBindNone] at h; cases h
          | some bq =>
            rw [hb, optBindSome] at h
            cases h
            obtain ⟨hw1, hu1⟩ := ih.1 _ _ _ _ hk
            obtain ⟨hw2, hu2⟩ := ih.1 _ _ _ _ hb
            constructor
            · show (WfR lvl kq && WfR (lvl + 1) bq) = true
              rw [hw1, hw2]
              rfl
            · show (unforcedR σ kq && unforcedR σ bq) = true
              rw [hu1, hu2]
              rfl
      case hole hid =>
        rw [quoteA_hole] at h
        cases hc : σ[hid]? with
        | none =>
          rw [hc] at h
          cases h
          refine ⟨rfl, ?_⟩
          show (match σ[hid]? with
            | some (HoleInnerA.filledH _) => false
            | _ => true) = true
          rw [hc]
        | some cell =>
          cases cell with
          | emptyH a b c =>
            rw [hc] at h
            cases h
            refine ⟨rfl, ?_⟩
            show (match σ[hid]? with
              | some (HoleInnerA.filledH _) => false
              | _ => true) = true
            rw [hc]
          | filledH u =>
            rw [hc] at h
            exact ih.1 _ _ _ _ h
      case bound l =>
        rw [quoteA_bound] at h
        split at h
        · rename_i hlt
          cases h
          refine ⟨?_, rfl⟩
          show decide (lvl - l - 1 < lvl) = true
          simp only [decide_eq_true_eq]
          omega
        · cases h
      case tuple ts =>
        rw [quoteA_tuple] at h
        cases hts : quoteListA f lvl ts σ with
        | none => rw [hts, optBindNone] at h; cases h
        | some rs1 =>
          rw [hts, optBindSome] at h
          cases h
          obtain ⟨hw1, hu1⟩ := ih.2 _ _ _ _ hts
          exact ⟨hw1, hu1⟩
      case app g a =>
        rw [quoteA_app] at h
        cases hg : quoteA f lvl g σ with
        | none => rw [hg, optBindNone] at h; cases h
        | some gq =>
          rw [hg, optBindSome] at h
          cases ha : quoteA f lvl a σ with
          | none => rw [ha, optBindNone] at h; cases h
          | some aq =>
            rw [ha, optBindSome] at h
            cases h
            obtain ⟨hw1, hu1⟩ := ih.1 _ _ _ _ hg
            obtain ⟨hw2, hu2⟩ := ih.1 _ _ _ _ ha
            constructor
            · show (WfR lvl gq && WfR lvl aq) = true
              rw [hw1, hw2]
              rfl
            · show (unforcedR σ gq && unforcedR σ aq) = true
              rw [hu1, hu2]
              rfl
      case qualified c t =>
        rw [quoteA_qualified] at h
        cases hc : quoteA f lvl c σ with
        | none => rw [hc, optBindNone] at h; cases h
        | some cq =>
          rw [hc, optBindSome] at h
          cases ht : quoteA f lvl t σ with
          | none => rw [ht, optBindNone] at h; cases h
          | some tq =>
            rw [ht, optBindSome] at h
            cases h
            obtain ⟨hw1, hu1⟩ := ih.1 _ _ _ _ hc
            obtain ⟨hw2, hu2⟩ := ih.1 _ _ _ _ ht
            constructor
            · show (WfR lvl cq && WfR lvl tq) = true
              rw [hw1, hw2]
              rfl
            · show (unforcedR σ cq && unforcedR σ tq) = true
              rw [hu1, hu2]
              rfl
      all_goals cases h
      all_goals exact ⟨rfl, rfl⟩
    · intro lvl vs σ rs h
      cases vs with
      | nil =>
        cases h
        exact ⟨rfl, rfl⟩
      | cons v vs =>
        rw [quoteListA_cons2] at h
        cases hv : quoteA f lvl v σ with
        | none => rw [hv, optBindNone] at h; cases h
        | some vq =>
          rw [hv, optBindSome] at h
          cases hvs : quoteListA f lvl vs σ with
          | none => rw [hvs, optBindNone] at h; cases h
          | some rs1 =>
            rw [hvs, optBindSome] at h
            cases h
            obtain ⟨hw1, hu1⟩ := ih.1 _ _ _ _ hv
            obtain ⟨hw2, hu2⟩ := ih.2 _ _ _ _ hvs
            constructor
            · show (WfR lvl vq && WfRList lvl rs1) = true
              rw [hw1, hw2]
              rfl
            · show (unforcedR σ vq && unforcedRList σ rs1) = true
              rw [hu1, hu2]
              rfl

end VA

namespace VA

/-- Larger fuel preserves a successful `deref`. -/
theorem derefA_mono (f g : Nat) (t : VTy) (σ : StoreA) (r : VTy)
    (hfg : f ≤ g) (h : derefA f t σ = some r) : derefA g t σ = some r := by
  induction f generalizing t g with
  | zero => rw [derefA.eq_def] at h; cases h
  | succ f ih =>
    obtain ⟨g', rfl⟩ : ∃ g', g = g' + 1 := ⟨g - 1, by omega⟩
    rw [derefA_succ] at h
    rw [derefA_succ]
    cases t
    case hole hid =>
      cases hget : σ[hid]? with
      | none => simp only [hget] at h ⊢; exact h
      | some cell =>
        cases cell with
        | emptyH a b c => simp only [hget] at h ⊢; exact h
        | filledH u => simp only [hget] at h ⊢; exact ih g' u (by omega) h
    all_goals exact h

/-- `deref` is deterministic across fuels. -/
theorem derefA_det (f g : Nat) (t : VTy) (σ : StoreA) (r1 r2 : VTy)
    (h1 : derefA f t σ = some r1) (h2 : derefA g t σ = some r2) : r1 = r2 := by
  rcases le_total f g with hle | hle
  · rw [derefA_mono f g t σ r1 hle h1] at h2; cases h2; rfl
  · rw [derefA_mono g f t σ r2 hle h2] at h1; cases h1; rfl

/-- A type whose `deref` chain in `σ` ends at the `Error` type. -/
def derefsToError (σ : StoreA) (t : VTy) : Prop :=
  ∃ k, derefA k t σ = some .error

/-- The `Error` type trivially derefs to `Error` in any store. -/
theorem derefsToError_error (σ : StoreA) : derefsToError σ .error :=
  ⟨1, by rw [derefA_succ]⟩

/-- Destructuring a successful `seqE`. -/
theorem seqE_some (x y : Option (Except TypeErrorKind Unit)) (r : Except TypeErrorKind Unit)
    (h : seqE x y = some r) :
    (x = some (.ok ()) ∧ y = some r) ∨ (∃ e, x = some (.error e) ∧ r = .error e) := by
  unfold seqE at h
  split at h
  · cases h
  · rename_i u; exact Or.inl ⟨by cases u; rfl, h⟩
  · rename_i e; cases h; exact Or.inr ⟨e, rfl, rfl⟩

/-- Destructuring a successful `seqA`. -/
theorem seqA_some (x : ResA) (k : StateA → ResA) (res : Except TypeErrorKind Unit)
    (st' : StateA) (h : seqA x k = some (res, st')) :
    (∃ st1, x = some (.ok (), st1) ∧ k st1 = some (res, st')) ∨
    (∃ e st1, x = some (.error e, st1) ∧ res = .error e ∧ st' = st1) := by
  unfold seqA at h
  cases x with
  | none =>
    have h2 : (none : Option (Except TypeErrorKind Unit × StateA)) = some (res, st') := h
    cases h2
  | some p =>
    obtain ⟨res1, st1⟩ := p
    cases res1 with
    | error e =>
      have h2 : some (Except.error e, st1) = some (res, st') := h
      cases h2
      exact Or.inr ⟨e, _, rfl, rfl, rfl⟩
    | ok u =>
      cases u
      exact Or.inl ⟨st1, rfl, h⟩

/-- The occurs check on a type that derefs to `Error` can only succeed:
`Error` falls to the final `Ok` arm. -/
theorem occursA_on_error (f k : Nat) (env : EnvT) (scope hole : Nat) (t : VTy)
    (σ : StoreA) (res : Except TypeErrorKind Unit)
    (hk : derefA k t σ = some .error)
    (h : occursA f env scope hole t σ = some res) : res = .ok () := by
  cases f with
  | zero => rw [occursA.eq_def] at h; cases h
  | succ f =>
    rw [occursA_succ] at h
    cases hd : derefA f t σ with
    | none => rw [hd] at h; cases h
    | some t1 =>
      rw [hd] at h
      have ht1 : t1 = .error := derefA_det f k t σ t1 .error hd hk
      subst ht1
      cases h
      rfl

/-- The occurs check only ever fails with `InfiniteType` or
`EscapingScope`. -/
theorem occursA_error_kinds (f : Nat) :
    (∀ env scope hole t σ e, occursA f env scope hole t σ = some (.error e) →
       e = TypeErrorKind.infiniteType ∨ e = TypeErrorKind.escapingScope) ∧
    (∀ env scope hole ts σ e, occursListA f env scope hole ts σ = some (.error e) →
       e = TypeErrorKind.infiniteType ∨ e = TypeErrorKind.escapingScope) := by
  induction f with
  | zero =>
    constructor
    · intro env scope hole t σ e h; rw [occursA.eq_def] at h; cases h
    · intro env scope hole ts σ e h; rw [occursListA.eq_def] at h; cases h
  | succ f ih =>
    constructor
    · intro env scope hole t σ e h
      rw [occursA_succ] at h
      cases hd : derefA f t σ with
      | none => rw [hd, optBindNone] at h; cases h
      | some t1 =>
        rw [hd, optBindSome] at h
        split at h
        · rename_i d c
          rcases seqE_some _ _ _ h with ⟨hx, hy⟩ | ⟨e1, hx, he⟩
          · exact ih.1 env scope hole _ σ e hy
          · cases he; exact ih.1 env scope hole d σ _ hx
        · exact ih.1 env scope hole _ σ e h
        · split at h
          · cases h; exact Or.inl rfl
          · cases h
        · split at h
          · cases h; exact Or.inr rfl
          · cases h
        · exact ih.2 env scope hole _ σ e h
        · rename_i g a
          rcases seqE_some _ _ _ h with ⟨hx, hy⟩ | ⟨e1, hx, he⟩
          · exact ih.1 env scope hole _ σ e hy
          · cases he; exact ih.1 env scope hole g σ _ hx
        · cases h
    · intro env scope hole ts σ e h
      cases ts with
      | nil => rw [occursListA_nil] at h; cases h
      | cons x xs =>
        rw [occursListA_cons] at h
        rcases seqE_some _ _ _ h with ⟨hx, hy⟩ | ⟨e1, hx, he⟩
        · exact ih.2 env scope hole xs σ e hy
        · cases he; exact ih.1 env scope hole x σ _ hx

/-- `mismatchA` leaves the state unchanged. -/
theorem mismatchA_state (f : Nat) (env : EnvT) (l r : VTy) (st : StateA)
    (res : Except TypeErrorKind Unit) (st' : StateA)
    (h : mismatchA f env l r st = some (res, st')) : st' = st := by
  unfold mismatchA at h
  cases hql : quoteA f env.lvl l st.store with
  | none => rw [hql] at h; cases h
  | some ql =>
    rw [hql] at h
    cases hqr : quoteA f env.lvl r st.store with
    | none => rw [hqr] at h; cases h
    | some qr => rw [hqr] at h; cases h; rfl

/-- `unifyHoleFillA` does not touch the diagnostics. -/
theorem unifyHoleFillA_diags (f : Nat) (env : EnvT) (hole lvl : Nat) (right : VTy)
    (st : StateA) (res : Except TypeErrorKind Unit) (st' : StateA)
    (h : unifyHoleFillA f env hole lvl right st = some (res, st')) : st'.diags = st.diags := by
  unfold unifyHoleFillA at h
  cases ho : occursA f env lvl hole right st.store with
  | none => rw [ho] at h; cases h
  | some r =>
    rw [ho] at h
    cases r with
    | ok u => cases h; rfl
    | error e => cases h; rfl

/-- `instantiateStA` does not touch the diagnostics. -/
theorem instantiateStA_diags (f : Nat) (env : EnvT) (ty : VTy) (st : StateA)
    (v : VTy) (st' : StateA)
    (h : instantiateStA f env ty st = some (v, st')) : st'.diags = st.diags := by
  unfold instantiateStA at h
  cases hi : instantiateA f env ty st.store with
  | none => rw [hi] at h; cases h
  | some p => rw [hi] at h; cases h; rfl

/-- None of the unifier's inner functions ever report a diagnostic: they
only return error values.  (`Context::report` is called solely at the
top of `subsumes`.) -/
theorem clusterA_diags (f : Nat) :
    (∀ env l r st res st', unifyA f env l r st = some (res, st') →
        st'.diags = st.diags) ∧
    (∀ env xs ys st res st', unifyPairsA f env xs ys st = some (res, st') →
        st'.diags = st.diags) ∧
    (∀ env hole t st res st', unifyHoleA f env hole t st = some (res, st') →
        st'.diags = st.diags) ∧
    (∀ env l r st res st', subsumesGoA f env l r st = some (res, st') →
        st'.diags = st.diags) ∧
    (∀ env hole t st res st', subHoleTypeA f env hole t st = some (res, st') →
        st'.diags = st.diags) ∧
    (∀ env t hole st res st', subTypeHoleA f env t hole st = some (res, st') →
        st'.diags = st.diags) := by
  induction f with
  | zero =>
    refine ⟨?_, ?_, ?_, ?_, ?_, ?_⟩
    · intro env l r st res st' h; rw [unifyA.eq_def] at h; cases h
    · intro env xs ys st res st' h; rw [unifyPairsA.eq_def] at h; cases h
    · intro env hole t st res st' h; rw [unifyHoleA.eq_def] at h; cases h
    · intro env l r st res st' h; rw [subsumesGoA.eq_def] at h; cases h
    · intro env hole t st res st' h; rw [subHoleTypeA.eq_def] at h; cases h
    · intro env t hole st res st' h; rw [subTypeHoleA.eq_def] at h; cases h
  | succ f ih =>
    obtain ⟨ihU, ihP, ihH, ihG, ihSH, ihST⟩ := ih
    have hInst : ∀ env ty st v st1, instantiateStA f env ty st = some (v, st1) →
        st1.diags = st.diags := fun env ty st v st1 h => instantiateStA_diags f env ty st v st1 h
    refine ⟨?_, ?_, ?_, ?_, ?_, ?_⟩
    · -- unifyA
      intro env l r st res st' h
      rw [unifyA_succ] at h
      cases hdl : derefA f l st.store with
      | none => rw [hdl, optBindNone] at h; cases h
      | some l1 =>
        rw [hdl, optBindSome] at h
        cases hdr : derefA f r st.store with
        | none => rw [hdr, optBindNone] at h; cases h
        | some r1 =>
          rw [hdr, optBindSome] at h
          split at h
          · -- tuple / tuple
            split at h
            · exact ihP _ _ _ _ _ _ h
            · exact congrArg StateA.diags (mismatchA_state _ _ _ _ _ _ _ h)
          · -- app / app
            rcases seqA_some _ _ _ _ h with ⟨st1, hx, hk⟩ | ⟨e, st1, hx, hres, hst⟩
            · exact (ihU _ _ _ _ _ _ hk).trans (ihU _ _ _ _ _ _ hx)
            · subst hst; exact ihU _ _ _ _ _ _ hx
          · -- qualified / qualified
            rcases seqA_some _ _ _ _ h with ⟨st1, hx, hk⟩ | ⟨e, st1, hx, hres, hst⟩
            · exact (ihU _ _ _ _ _ _ hk).trans (ihU _ _ _ _ _ _ hx)
            · subst hst; exact ihU _ _ _ _ _ _ hx
          · -- hole / hole
            split at h
            · cases h; rfl
            · exact ihH _ _ _ _ _ _ h
          · -- hole left
            exact ihH _ _ _ _ _ _ h
          · -- hole right
            exact ihH _ _ _ _ _ _ h
          · -- bound / bound
            split at h
            · cases h; rfl
            · exact congrArg StateA.diags (mismatchA_state _ _ _ _ _ _ _ h)
          · -- variable / variable
            split at h
            · cases h; rfl
            · exact congrArg StateA.diags (mismatchA_state _ _ _ _ _ _ _ h)
          · cases h; rfl
          · cases h; rfl
          · cases h; rfl
          · cases h; rfl
          · exact congrArg StateA.diags (mismatchA_state _ _ _ _ _ _ _ h)
    · -- unifyPairsA
      intro env xs ys st res st' h
      match xs, ys with
      | [], ys => rw [unifyPairsA_nil] at h; cases h; rfl
      | x :: xs, [] => rw [unifyPairsA_nilr] at h; cases h; rfl
      | x :: xs, y :: ys =>
        rw [unifyPairsA_cons] at h
        rcases seqA_some _ _ _ _ h with ⟨st1, hx, hk⟩ | ⟨e, st1, hx, hres, hst⟩
        · exact (ihP _ _ _ _ _ _ hk).trans (ihU _ _ _ _ _ _ hx)
        · subst hst; exact ihU _ _ _ _ _ _ hx
    · -- unifyHoleA
      intro env hole t st res st' h
      rw [unifyHoleA_succ] at h
      split at h
      · -- empty cell
        cases hd : derefA f t st.store with
        | none => rw [hd, optBindNone] at h; cases h
        | some t1 =>
          rw [hd, optBindSome] at h
          split at h
          · split at h
            · cases h; rfl
            · exact unifyHoleFillA_diags _ _ _ _ _ _ _ _ h
          · exact unifyHoleFillA_diags _ _ _ _ _ _ _ _ h
      · exact ihU _ _ _ _ _ _ h
      · cases h
    · -- subsumesGoA
      intro env l r st res st' h
      rw [subsumesGoA_succ] at h
      cases hdl : derefA f l st.store with
      | none => rw [hdl, optBindNone] at h; cases h
      | some l1 =>
        rw [hdl, optBindSome] at h
        cases hdr : derefA f r st.store with
        | none => rw [hdr, optBindNone] at h; cases h
        | some r1 =>
          rw [hdr, optBindSome] at h
          split at h
          · -- hole left
            split at h
            · exact ihSH _ _ _ _ _ _ h
            · split at h
              · split at h
                · exact ihST _ _ _ _ _ _ h
                · exact ihU _ _ _ _ _ _ h
              · exact ihG _ _ _ _ _ _ h
              · exact ihU _ _ _ _ _ _ h
          · -- hole right
            split at h
            · exact ihST _ _ _ _ _ _ h
            · split at h
              · -- forall left: instantiate
                cases hi : instantiateStA f env _ st with
                | none => rw [hi, optBindNone] at h; cases h
                | some p =>
                  rw [hi, optBindSome] at h
                  obtain ⟨inst, st1⟩ := p
                  exact (ihG _ _ _ _ _ _ h).trans (hInst _ _ _ _ _ hi)
              · exact ihU _ _ _ _ _ _ h
          · -- arrow / arrow
            rcases seqA_some _ _ _ _ h with ⟨st1, hx, hk⟩ | ⟨e, st1, hx, hres, hst⟩
            · exact (ihG _ _ _ _ _ _ hk).trans (ihG _ _ _ _ _ _ hx)
            · subst hst; exact ihG _ _ _ _ _ _ hx
          · -- forall right
            exact ihG _ _ _ _ _ _ h
          · -- forall left
            cases hi : instantiateStA f env _ st with
            | none => rw [hi, optBindNone] at h; cases h
            | some p =>
              rw [hi, optBindSome] at h
              obtain ⟨inst, st1⟩ := p
              exact (ihG _ _ _ _ _ _ h).trans (hInst _ _ _ _ _ hi)
          · exact ihU _ _ _ _ _ _ h
    · -- subHoleTypeA
      intro env hole t st res st' h
      rw [subHoleTypeA_succ] at h
      cases hd : derefA f t st.store with
      | none => rw [hd, optBindNone] at h; cases h
      | some t1 =>
        rw [hd, optBindSome] at h
        split at h
        · exact ihSH _ _ _ _ _ _ h
        · split at h
          · rcases seqA_some _ _ _ _ h with ⟨st4, hx, hk⟩ | ⟨e, st4, hx, hres, hst⟩
            · exact (ihSH _ _ _ _ _ _ hk).trans ((ihST _ _ _ _ _ _ hx).trans rfl)
            · subst hst; exact (ihST _ _ _ _ _ _ hx).trans rfl
          · cases h
        · exact ihH _ _ _ _ _ _ h
    · -- subTypeHoleA
      intro env t hole st res st' h
      rw [subTypeHoleA_succ] at h
      cases hd : derefA f t st.store with
      | none => rw [hd, optBindNone] at h; cases h
      | some t1 =>
        rw [hd, optBindSome] at h
        split at h
        · cases hi : instantiateStA f env _ st with
          | none => rw [hi, optBindNone] at h; cases h
          | some p =>
            rw [hi, optBindSome] at h
            obtain ⟨inst, st1⟩ := p
            exact (ihST _ _ _ _ _ _ h).trans (hInst _ _ _ _ _ hi)
        · split at h
          · rcases seqA_some _ _ _ _ h with ⟨st4, hx, hk⟩ | ⟨e, st4, hx, hres, hst⟩
            · exact (ihST _ _ _ _ _ _ hk).trans ((ihSH _ _ _ _ _ _ hx).trans rfl)
            · subst hst; exact (ihSH _ _ _ _ _ _ hx).trans rfl
          · cases h
        · exact ihH _ _ _ _ _ _ h

end VA

namespace VA

/-- The fill path on a right-hand side that derefs to `Error` succeeds
silently (the occurs check's `Error` falls to its final `Ok` arm). -/
theorem unifyHoleFillA_on_error (f k : Nat) (env : EnvT) (hole lvl : Nat) (t : VTy)
    (st : StateA) (res : Except TypeErrorKind Unit) (st' : StateA)
    (hk : derefA k t st.store = some .error)
    (h : unifyHoleFillA f env hole lvl t st = some (res, st')) :
    res = .ok () ∧ st'.diags = st.diags := by
  unfold unifyHoleFillA at h
  cases ho : occursA f env lvl hole t st.store with
  | none => rw [ho, optBindNone] at h; cases h
  | some os =>
    rw [ho, optBindSome] at h
    have hos : os = .ok () := occursA_on_error f k env lvl hole t st.store os hk ho
    subst hos
    have h2 : some ((Except.ok () : Except TypeErrorKind Unit),
        { st with store := st.store.set hole (.filledH t) }) = some (res, st') := h
    cases h2
    exact ⟨rfl, rfl⟩

/-- With a side that derefs to `Error`, every reachable step of the
unifier and of subsumption succeeds and reports nothing: the `Error`
arms of `unify` return `Ok`, an empty hole is silently filled with the
`Error`-chained type, and the skolemization / instantiation arms of
`go` preserve the `Error` side. -/
theorem clusterA_error_ok (f : Nat) :
    (∀ env l r st res st', (derefsToError st.store l ∨ derefsToError st.store r) →
        unifyA f env l r st = some (res, st') →
        res = .ok () ∧ st'.diags = st.diags) ∧
    (∀ env hole t st res st', derefsToError st.store t →
        unifyHoleA f env hole t st = some (res, st') →
        res = .ok () ∧ st'.diags = st.diags) ∧
    (∀ env l r st res st', (derefsToError st.store l ∨ derefsToError st.store r) →
        subsumesGoA f env l r st = some (res, st') →
        res = .ok () ∧ st'.diags = st.diags) ∧
    (∀ env hole t st res st', derefsToError st.store t →
        subHoleTypeA f env hole t st = some (res, st') →
        res = .ok () ∧ st'.diags = st.diags) ∧
    (∀ env t hole st res st', derefsToError st.store t →
        subTypeHoleA f env t hole st = some (res, st') →
        res = .ok () ∧ st'.diags = st.diags) := by
  induction f with
  | zero =>
    refine ⟨?_, ?_, ?_, ?_, ?_⟩
    · intro env l r st res st' hyp h; rw [unifyA.eq_def] at h; cases h
    · intro env hole t st res st' hyp h; rw [unifyHoleA.eq_def] at h; cases h
    · intro env l r st res st' hyp h; rw [subsumesGoA.eq_def] at h; cases h
    · intro env hole t st res st' hyp h; rw [subHoleTypeA.eq_def] at h; cases h
    · intro env t hole st res st' hyp h; rw [subTypeHoleA.eq_def] at h; cases h
  | succ f ih =>
    obtain ⟨ihU, ihH, ihG, ihSH, ihST⟩ := ih
    refine ⟨?_, ?_, ?_, ?_, ?_⟩
    · -- unifyA
      intro env l r st res st' hyp h
      rw [unifyA_succ] at h
      cases hdl : derefA f l st.store with
      | none => rw [hdl, optBindNone] at h; cases h
      | some l1 =>
        rw [hdl, optBindSome] at h
        cases hdr : derefA f r st.store with
        | none => rw [hdr, optBindNone] at h; cases h
        | some r1 =>
          rw [hdr, optBindSome] at h
          rcases hyp with ⟨k, hk⟩ | ⟨k, hk⟩
          · have hl1 : l1 = .error := derefA_det f k l st.store l1 .error hdl hk
            subst hl1
            cases r1
            case hole m =>
              exact ihH _ _ _ _ _ _ (derefsToError_error st.store) h
            all_goals
              have h2 : some ((Except.ok () : Except TypeErrorKind Unit), st)
                  = some (res, st') := h
              cases h2
              exact ⟨rfl, rfl⟩
          · have hr1 : r1 = .error := derefA_det f k r st.store r1 .error hdr hk
            subst hr1
            cases l1
            case hole m =>
              exact ihH _ _ _ _ _ _ (derefsToError_error st.store) h
            all_goals
              have h2 : some ((Except.ok () : Except TypeErrorKind Unit), st)
                  = some (res, st') := h
              cases h2
              exact ⟨rfl, rfl⟩
    · -- unifyHoleA
      intro env hole t st res st' hyp h
      rw [unifyHoleA_succ] at h
      split at h
      · cases hd : derefA f t st.store with
        | none => rw [hd, optBindNone] at h; cases h
        | some t1 =>
          rw [hd, optBindSome] at h
          obtain ⟨k, hk⟩ := hyp
          have ht1 : t1 = .error := derefA_det f k t st.store t1 .error hd hk
          subst ht1
          exact unifyHoleFillA_on_error f k env hole _ t st res st' hk h
      · exact ihU _ _ _ _ _ _ (Or.inr hyp) h
      · cases h
    · -- subsumesGoA
      intro env l r st res st' hyp h
      rw [subsumesGoA_succ] at h
      cases hdl : derefA f l st.store with
      | none => rw [hdl, optBindNone] at h; cases h
      | some l1 =>
        rw [hdl, optBindSome] at h
        cases hdr : derefA f r st.store with
        | none => rw [hdr, optBindNone] at h; cases h
        | some r1 =>
          rw [hdr, optBindSome] at h
          rcases hyp with ⟨k, hk⟩ | ⟨k, hk⟩
          · have hl1 : l1 = .error := derefA_det f k l st.store l1 .error hdl hk
            subst hl1
            cases r1
            case hole m =>
              have h2 : (if isEmptyHoleA st.store m then subTypeHoleA f env VTy.error m st
                  else unifyA f env VTy.error (VTy.hole m) st) = some (res, st') := h
              split at h2
              · exact ihST _ _ _ _ _ _ (derefsToError_error st.store) h2
              · exact ihU _ _ _ _ _ _ (Or.inl (derefsToError_error st.store)) h2
            case forallV fn fk fce fcb =>
              exact ihG _ _ _ _ _ _ (Or.inl (derefsToError_error st.store)) h
            all_goals
              exact ihU _ _ _ _ _ _ (Or.inl (derefsToError_error st.store)) h
          · have hr1 : r1 = .error := derefA_det f k r st.store r1 .error hdr hk
            subst hr1
            cases l1
            case hole n =>
              have h2 : (if isEmptyHoleA st.store n then subHoleTypeA f env n VTy.error st
                  else unifyA f env (VTy.hole n) VTy.error st) = some (res, st') := h
              split at h2
              · exact ihSH _ _ _ _ _ _ (derefsToError_error st.store) h2
              · exact ihU _ _ _ _ _ _ (Or.inr (derefsToError_error st.store)) h2
            case forallV ln lk lce lcb =>
              cases hi : instantiateStA f env (.forallV ln lk lce lcb) st with
              | none =>
                have h2 : (instantiateStA f env (.forallV ln lk lce lcb) st >>=
                    fun p => subsumesGoA f env p.1 VTy.error p.2) = some (res, st') := h
                rw [hi, optBindNone] at h2; cases h2
              | some p =>
                have h2 : (instantiateStA f env (.forallV ln lk lce lcb) st >>=
                    fun p => subsumesGoA f env p.1 VTy.error p.2) = some (res, st') := h
                rw [hi, optBindSome] at h2
                obtain ⟨inst, st1⟩ := p
                obtain ⟨hres, hdg⟩ :=
                  ihG _ _ _ _ _ _ (Or.inr (derefsToError_error st1.store)) h2
                exact ⟨hres, hdg.trans (instantiateStA_diags f env _ st inst st1 hi)⟩
            all_goals
              exact ihU _ _ _ _ _ _ (Or.inr (derefsToError_error st.store)) h
    · -- subHoleTypeA
      intro env hole t st res st' hyp h
      rw [subHoleTypeA_succ] at h
      cases hd : derefA f t st.store with
      | none => rw [hd, optBindNone] at h; cases h
      | some t1 =>
        rw [hd, optBindSome] at h
        obtain ⟨k, hk⟩ := hyp
        have ht1 : t1 = .error := derefA_det f k t st.store t1 .error hd hk
        subst ht1
        exact ihH _ _ _ _ _ _ ⟨k, hk⟩ h
    · -- subTypeHoleA
      intro env t hole st res st' hyp h
      rw [subTypeHoleA_succ] at h
      cases hd : derefA f t st.store with
      | none => rw [hd, optBindNone] at h; cases h
      | some t1 =>
        rw [hd, optBindSome] at h
        obtain ⟨k, hk⟩ := hyp
        have ht1 : t1 = .error := derefA_det f k t st.store t1 .error hd hk
        subst ht1
        exact ihH _ _ _ _ _ _ ⟨k, hk⟩ h

end VA

/-- C7: with the `Error` type on either side after deref, `unify`
returns success without emitting any diagnostic, and `subsumes` on the
same pair likewise reports nothing — already-reported errors never
produce follow-on `TypeMismatch` diagnostics. -/
theorem c7_error_no_cascade (f k : Nat) (env : VA.EnvT) (l r : VA.VTy) (st : VA.StateA)
    (herr : VA.derefA k l st.store = some .error ∨ VA.derefA k r st.store = some .error) :
    (∀ res st', VA.unifyA f env l r st = some (res, st') →
        res = .ok () ∧ st'.diags = st.diags) ∧
    (∀ st', VA.subsumesA f env l r st = some st' → st'.diags = st.diags) := by
  have hyp : VA.derefsToError st.store l ∨ VA.derefsToError st.store r := by
    rcases herr with h | h
    · exact Or.inl ⟨k, h⟩
    · exact Or.inr ⟨k, h⟩
  constructor
  · intro res st' h
    exact (VA.clusterA_error_ok f).1 env l r st res st' hyp h
  · intro st' h
    unfold VA.subsumesA at h
    cases hgo : VA.subsumesGoA f env l r st with
    | none => rw [hgo, optBindNone] at h; cases h
    | some p =>
      rw [hgo, optBindSome] at h
      obtain ⟨res, st1⟩ := p
      obtain ⟨hres, hdiag⟩ := (VA.clusterA_error_ok f).2.2.1 env l r st res st1 hyp hgo
      subst hres
      have h2 : some st1 = some st' := h
      cases h2
      exact hdiag

/-- Witness for `c7_error_no_cascade`: unifying `Error` against `Type`
succeeds leaving the diagnostics untouched. -/
theorem c7_witness :
    VA.unifyA 3 VA.emptyEnvA VA.VTy.error VA.VTy.typ ⟨[], 0, []⟩
        = some (.ok (), ⟨[], 0, []⟩) ∧
    ((Except.ok () : Except VA.TypeErrorKind Unit) = .ok () ∧
      (VA.StateA.mk [] 0 []).diags = (VA.StateA.mk [] 0 []).diags) :=
  ⟨rfl, (c7_error_no_cascade 3 1 VA.emptyEnvA .error .typ ⟨[], 0, []⟩ (Or.inl rfl)).1
      (.ok ()) ⟨[], 0, []⟩ rfl⟩

/-- C6 (amended): `unify_hole(h, t)` on a hole in state
`Empty(_, _, scope)`: if `t` dereferences to `h` itself it succeeds
*without* writing; otherwise it fills `h` with `t` and succeeds exactly
when the occurs check (run with scope `scope`) passes, and an occurs
failure is propagated unchanged and is always either `InfiniteType`
(the traversal reached `h` itself) or `EscapingScope` (it reached a
`Bound(l)` with `l ≥ scope`); on a hole in state `Filled(u)` it recurses
as `unify(u, t)` without writing the cell. -/
theorem c6_unify_hole_amended (f : Nat) (env : VA.EnvT) (hole : Nat) (t : VA.VTy)
    (st : VA.StateA) :
    (∀ nm kd scope, st.store[hole]? = some (.emptyH nm kd scope) →
      (VA.derefA f t st.store = some (.hole hole) →
        VA.unifyHoleA (f + 1) env hole t st = some (.ok (), st)) ∧
      (∀ t1, VA.derefA f t st.store = some t1 → t1 ≠ .hole hole →
        (VA.occursA f env scope hole t st.store = some (.ok ()) →
          VA.unifyHoleA (f + 1) env hole t st =
            some (.ok (), { st with store := st.store.set hole (.filledH t) })) ∧
        (∀ e, VA.occursA f env scope hole t st.store = some (.error e) →
          VA.unifyHoleA (f + 1) env hole t st = some (.error e, st) ∧
          (e = .infiniteType ∨ e = .escapingScope)))) ∧
    (∀ u, st.store[hole]? = some (.filledH u) →
      VA.unifyHoleA (f + 1) env hole t st = VA.unifyA f env u t st) := by
  constructor
  · intro nm kd scope hcell
    constructor
    · intro hd
      rw [VA.unifyHoleA_succ]
      simp only [hcell]
      rw [hd, optBindSome]
      simp
    · intro t1 hd hne
      have hfillok : VA.occursA f env scope hole t st.store = some (.ok ()) →
          VA.unifyHoleFillA f env hole scope t st =
            some (.ok (), { st with store := st.store.set hole (.filledH t) }) := by
        intro hocc
        unfold VA.unifyHoleFillA
        rw [hocc, optBindSome]
        rfl
      have hfillerr : ∀ e, VA.occursA f env scope hole t st.store = some (.error e) →
          VA.unifyHoleFillA f env hole scope t st = some (.error e, st) := by
        intro e hocc
        unfold VA.unifyHoleFillA
        rw [hocc, optBindSome]
        rfl
      constructor
      · intro hocc
        rw [VA.unifyHoleA_succ]
        simp only [hcell]
        rw [hd, optBindSome]
        cases t1
        case hole h1 =>
          have hne2 : ¬ hole = h1 := fun hh => hne (by rw [hh])
          simp only [if_neg hne2]
          exact hfillok hocc
        all_goals exact hfillok hocc
      · intro e hocc
        refine ⟨?_, (VA.occursA_error_kinds f).1 env scope hole t st.store e hocc⟩
        rw [VA.unifyHoleA_succ]
        simp only [hcell]
        rw [hd, optBindSome]
        cases t1
        case hole h1 =>
          have hne2 : ¬ hole = h1 := fun hh => hne (by rw [hh])
          simp only [if_neg hne2]
          exact hfillerr e hocc
        all_goals exact hfillerr e hocc
  · intro u hcell
    rw [VA.unifyHoleA_succ]
    simp only [hcell]

/-- Witness for `c6_unify_hole_amended`: filling an empty hole of level
0 with `Type` succeeds and writes the cell. -/
theorem c6_witness :
    VA.unifyHoleA 4 VA.emptyEnvA 0 VA.VTy.typ ⟨[VA.HoleInnerA.emptyH "h" .typ 0], 0, []⟩
      = some (.ok (), ⟨[VA.HoleInnerA.filledH VA.VTy.typ], 0, []⟩) :=
  (((c6_unify_hole_amended 3 VA.emptyEnvA 0 VA.VTy.typ
      ⟨[VA.HoleInnerA.emptyH "h" .typ 0], 0, []⟩).1 "h" VA.VTy.typ 0 rfl).2
    VA.VTy.typ rfl (fun hc => VA.VTy.noConfusion hc)).1 rfl

/-- C1: the claim states that every fill leaves no `Bound(l)` with
`l ≥ hole.level` in the filled type.  The code violates it: `occurs`
(`unify.rs` 182-203) has no arm for `Qualified`, which falls to the
final `Ok` arm, so `unify_hole` on an `Empty` hole of level 0 against
`Qualified(Bound 3, Type)` passes the occurs check and fills the cell
with a type containing the escaping `Bound 3`. -/
theorem c1_escape_through_qualified :
    VA.unifyHoleA 9 VA.emptyEnvA 0 (VA.VTy.qualified (.bound 3) .typ)
        ⟨[VA.HoleInnerA.emptyH "h" VA.VTy.typ 0], 0, []⟩
      = some (.ok (), ⟨[VA.HoleInnerA.filledH (VA.VTy.qualified (.bound 3) .typ)], 0, []⟩) ∧
    VA.hasEscapingBound 0 (VA.VTy.qualified (.bound 3) .typ) = true :=
  ⟨rfl, rfl⟩

/-- C2 (counterexample): on `∀a:Type. ∀b:Type. Type` — whose deref is a
chain of two leading `Forall`s — `instantiate` returns a type that still
has a leading `Forall`, against the claim that every leading binder is
replaced. -/
theorem c2_counterexample :
    (VB.instantiateB 9 VB.emptyEnvB
        (VB.VTy.forallV "a" .typ VB.emptyEnvB (.forallR "b" .typ .typ)) []).map
        (fun p => VB.isForallHeadB p.1)
      = some true := rfl

/-- C2 (amended): `instantiate` peels exactly one leading `Forall`: when
the type derefs to `Forall(n, k, closure)` it returns the closure body
applied to a fresh hole — a row hole with empty lack-set when `k` is the
row kind, otherwise an `Empty` hole at kind `k` — named `n`, at the
env's level, appended to the store; when the deref is not a `Forall` the
original type and store are returned unchanged. -/
theorem c2_instantiate_one_forall (f : Nat) (env : VB.EnvB) (ty : VB.VTy) (σ : VB.StoreB) :
    (∀ n k cenv cb, VB.derefB f ty σ = some (.forallV n k cenv cb) →
      VB.instantiateB f env ty σ =
        some (VB.applyB cenv cb (some n) (.hole σ.length) k,
          σ ++ [if VB.isRow k then VB.HoleInnerB.rowH n env.lvl []
                else VB.HoleInnerB.emptyH n k env.lvl])) ∧
    (∀ v, VB.derefB f ty σ = some v → VB.isForallHeadB v = false →
      VB.instantiateB f env ty σ = some (ty, σ)) := by
  constructor
  · intro n k cenv cb hd
    cases hr : VB.isRow k <;> simp [VB.instantiateB, hd, hr]
  · intro v hd hv
    cases v <;> simp_all [VB.instantiateB, VB.isForallHeadB]

/-- Witness for `c2_instantiate_one_forall`: a single `Forall` over a
row kind produces a fresh row hole; a non-`Forall` type is returned
unchanged. -/
theorem c2_witness :
    VB.instantiateB 5 VB.emptyEnvB (VB.VTy.forallV "e" .row VB.emptyEnvB .typ) []
        = some (VB.VTy.typ, [VB.HoleInnerB.rowH "e" 0 []]) ∧
    VB.instantiateB 5 VB.emptyEnvB VB.VTy.typ [] = some (VB.VTy.typ, []) := by
  constructor
  · exact (c2_instantiate_one_forall 5 VB.emptyEnvB
      (VB.VTy.forallV "e" .row VB.emptyEnvB .typ) []).1 "e" .row VB.emptyEnvB .typ rfl
  · exact (c2_instantiate_one_forall 5 VB.emptyEnvB VB.VTy.typ []).2 .typ rfl rfl

/-- C3 (counterexample): an `Empty` hole whose stored level 0 does *not*
exceed the surrounding level 0 is nevertheless destructively replaced by
a fresh `Bound` and generalized — the claim says such holes are left
untouched. -/
theorem c3_counterexample :
    VB.generalizeB 9 VB.emptyEnvB (VB.VTy.hole 0) [VB.HoleInnerB.emptyH "a" .typ 0]
      = some (VB.VTy.forallV "a" VB.VTy.typ VB.emptyEnvB (VB.RTy.hole 0),
              [VB.HoleInnerB.filledRH (VB.RTy.bound 0)]) := rfl

/-- C3 (amended): `generalize` quotes at the current env level and
replaces an `Empty` hole with a fresh `Bound` — recording its name and
kind, wrapping the result in one `Forall` per collected variable and
evaluating back to Virtual — for *every* `Empty` hole it encounters:
the hole's stored level `lvlh` is arbitrary here (in particular it may
be at or below the surrounding level), because `go` matches it with `_`. -/
theorem c3_generalize_ignores_level (f : Nat) (env : VB.EnvB) (ty : VB.VTy) (σ : VB.StoreB)
    (hid : Nat) (n : String) (k : VB.VTy) (lvlh : Nat) (kq : VB.RTy)
    (hq : VB.quoteB (f + 1) env.lvl ty σ = some (.hole hid))
    (hcell : σ[hid]? = some (.emptyH n k lvlh))
    (hkq : VB.quoteB (f + 1) env.lvl k (σ.set hid (.filledRH (.bound env.lvl))) = some kq) :
    VB.generalizeB (f + 1) env ty σ =
      some (VB.evalB (.forallR n kq (.hole hid)) env,
            σ.set hid (.filledRH (.bound env.lvl))) := by
  simp [VB.generalizeB, hq, VB.goB_succ, hcell, hkq, List.foldlM]

/-- Witness for `c3_generalize_ignores_level` at a hole of level 5 in an
env of level 0. -/
theorem c3_witness :
    VB.generalizeB 8 VB.emptyEnvB (VB.VTy.hole 0) [VB.HoleInnerB.emptyH "b" .typ 5]
      = some (VB.VTy.forallV "b" VB.VTy.typ VB.emptyEnvB (VB.RTy.hole 0),
              [VB.HoleInnerB.filledRH (VB.RTy.bound 0)]) :=
  c3_generalize_ignores_level 7 VB.emptyEnvB (VB.VTy.hole 0)
    [VB.HoleInnerB.emptyH "b" .typ 5] 0 "b" .typ 5 .typ rfl rfl rfl

/-- C4 (counterexample): a subsumption failing with `InfiniteType`
(here `hole 0` against `(hole 0,)`) reports the original kind, not a
`TypeMismatch` with the outer quoted types as the claim states. -/
theorem c4_counterexample :
    VA.subsumesA 12 VA.emptyEnvA (.hole 0) (.tuple [.hole 0])
        ⟨[VA.HoleInnerA.emptyH "h" .typ 0], 0, []⟩
      = some ⟨[VA.HoleInnerA.emptyH "h" .typ 0], 0, [VA.TypeErrorKind.infiniteType]⟩ := rfl

/-- C4 (amended): when the inner derivation of `subsumes` fails, exactly
one diagnostic is reported (the derivation itself reports none): a
`TypeMismatch` failure is replaced by a `TypeMismatch` carrying the
outer (original) lhs and rhs quoted at `env.level` against the
post-derivation store, while a failure of any other kind is reported
unchanged — not wrapped into a `TypeMismatch` as the claim stated. -/
theorem c4_subsumes_report (f : Nat) (env : VA.EnvT) (l r : VA.VTy) (st : VA.StateA)
    (kind : VA.TypeErrorKind) (st1 : VA.StateA)
    (hgo : VA.subsumesGoA f env l r st = some (.error kind, st1)) :
    ((∀ envm lm rm, kind ≠ .typeMismatch envm lm rm) →
      VA.subsumesA f env l r st = some { st1 with diags := st.diags ++ [kind] }) ∧
    (∀ envm lm rm, kind = .typeMismatch envm lm rm →
      ∀ ql qr, VA.quoteA f env.lvl l st1.store = some ql →
        VA.quoteA f env.lvl r st1.store = some qr →
        VA.subsumesA f env l r st =
          some { st1 with diags := st.diags ++ [.typeMismatch env ql qr] }) := by
  have hd : st1.diags = st.diags := (VA.clusterA_diags f).2.2.2.1 env l r st _ st1 hgo
  constructor
  · intro hnm
    unfold VA.subsumesA
    rw [hgo, optBindSome]
    cases kind
    case typeMismatch a b c => exact absurd rfl (hnm a b c)
    all_goals simp [VA.reportA, hd]
  · intro envm lm rm hk ql qr hql hqr
    subst hk
    unfold VA.subsumesA
    rw [hgo, optBindSome]
    simp [hql, hqr, optBindSome, VA.reportA, hd]

/-- Witness for `c4_subsumes_report`: `Type ⊑ Constraint` fails with a
`TypeMismatch` that is rewrapped with the outer quoted types. -/
theorem c4_witness :
    VA.subsumesA 5 VA.emptyEnvA VA.VTy.typ VA.VTy.constraint ⟨[], 0, []⟩
      = some ⟨[], 0, [VA.TypeErrorKind.typeMismatch VA.emptyEnvA .typ .constraint]⟩ :=
  (c4_subsumes_report 5 VA.emptyEnvA VA.VTy.typ VA.VTy.constraint ⟨[], 0, []⟩
      (VA.TypeErrorKind.typeMismatch VA.emptyEnvA .typ .constraint) ⟨[], 0, []⟩ rfl).2
    VA.emptyEnvA .typ .constraint rfl .typ .constraint rfl rfl

/-- C5: when both sides of `subsumes` are arrows, the domain is compared
contravariantly (right domain as left argument of the recursive call)
and then the codomain covariantly, in that order, threading the state. -/
theorem c5_arrow_variance (f : Nat) (env : VA.EnvT) (a1 b1 a2 b2 : VA.VTy) (st : VA.StateA) :
    VA.subsumesGoA (f + 2) env (.arrow a1 b1) (.arrow a2 b2) st =
      (do
        match ← VA.subsumesGoA (f + 1) env a2 a1 st with
        | (.ok _, st1) => VA.subsumesGoA (f + 1) env b1 b2 st1
        | (.error e, st1) => pure (.error e, st1)) := by
  conv_lhs => rw [VA.subsumesGoA_succ]
  rw [show VA.derefA (f + 1) (VA.VTy.arrow a1 b1) st.store = some (.arrow a1 b1) from by
    rw [VA.derefA_succ]]
  rw [optBindSome]
  rw [show VA.derefA (f + 1) (VA.VTy.arrow a2 b2) st.store = some (.arrow a2 b2) from by
    rw [VA.derefA_succ]]
  rw [optBindSome]
  cases hx : VA.subsumesGoA (f + 1) env a2 a1 st with
  | none => simp [VA.seqA, hx, optBindNone]
  | some p =>
    obtain ⟨res, st1⟩ := p
    cases res <;> simp [VA.seqA, hx, optBindSome]

/-- C6 (counterexample): `unify_hole` on an `Empty` hole against a type
dereferencing to that very hole succeeds *without* filling, while the
occurs check on the same input fails with `InfiniteType` — refuting
"fills h with t and succeeds if and only if the occurs check passes". -/
theorem c6_counterexample :
    VA.unifyHoleA 9 VA.emptyEnvA 0 (.hole 0) ⟨[VA.HoleInnerA.emptyH "h" .typ 0], 0, []⟩
      = some (.ok (), ⟨[VA.HoleInnerA.emptyH "h" .typ 0], 0, []⟩) ∧
    VA.occursA 9 VA.emptyEnvA 0 0 (.hole 0) [VA.HoleInnerA.emptyH "h" .typ 0]
      = some (.error .infiniteType) := ⟨rfl, rfl⟩

/-- C9: `deref` is idempotent — dereferencing its result returns it
unchanged at any positive fuel — and its result is never a hole whose
cell is in `Filled` state, so pattern matches after `deref` never see a
`Filled` head. -/
theorem c9_deref_idempotent (f : Nat) (t : VA.VTy) (σ : VA.StoreA) (r : VA.VTy)
    (h : VA.derefA f t σ = some r) :
    (∀ g : Nat, 1 ≤ g → VA.derefA g r σ = some r) ∧
    (∀ hid u, r = VA.VTy.hole hid → σ[hid]? ≠ some (VA.HoleInnerA.filledH u)) := by
  induction f generalizing t with
  | zero => rw [VA.derefA.eq_def] at h; cases h
  | succ f ih =>
    rw [VA.derefA_succ] at h
    cases t
    case hole hid =>
      cases hget : σ[hid]? with
      | none =>
        simp only [hget] at h
        cases h
        refine ⟨fun g hg => ?_, fun hid2 u hr => ?_⟩
        · cases g with
          | zero => omega
          | succ g => rw [VA.derefA_succ]; simp [hget]
        · cases hr
          simp [hget]
      | some cell =>
        cases cell with
        | emptyH nm kd lv =>
          simp only [hget] at h
          cases h
          refine ⟨fun g hg => ?_, fun hid2 u hr => ?_⟩
          · cases g with
            | zero => omega
            | succ g => rw [VA.derefA_succ]; simp [hget]
          · cases hr
            simp [hget]
        | filledH u =>
          simp only [hget] at h
          exact ih u h
    all_goals
      cases h
      refine ⟨fun g hg => ?_, fun hid2 u hr => ?_⟩
      all_goals try (cases hr)
      all_goals
        cases g with
        | zero => omega
        | succ g => rw [VA.derefA_succ]

/-- Witness for `c9_deref_idempotent`: a two-step `Filled` chain ends at
an `Empty`-headed hole and re-dereferencing is the identity. -/
theorem c9_witness :
    VA.derefA 1 (VA.VTy.hole 1)
        [VA.HoleInnerA.filledH (.hole 1), VA.HoleInnerA.emptyH "a" .typ 0]
      = some (VA.VTy.hole 1) :=
  (c9_deref_idempotent 3 (VA.VTy.hole 0)
    [VA.HoleInnerA.filledH (.hole 1), VA.HoleInnerA.emptyH "a" .typ 0]
    (VA.VTy.hole 1) rfl).1 1 (by omega)

/-- C10: `infer` on a variable expression looks the name up in
`env.vars` and unwraps: an unbound variable is a panic (`none`), with no
diagnostic emitted and no `Error` type returned, while a bound variable
yields its stored type verbatim with the state untouched. -/
theorem c10_infer_variable (env : VA.EnvT) (m : String) (st : VA.StateA) :
    (VA.lookupVar env m = none → VA.inferA (.variable m) env st = none) ∧
    (∀ t, VA.lookupVar env m = some t →
      VA.inferA (.variable m) env st = some (t, .variableE m, st)) := by
  constructor
  · intro h; simp [VA.inferA, h]
  · intro t h; simp [VA.inferA, h]

/-- Witness for `c10_infer_variable`: an unbound variable panics; a
bound one returns its type verbatim. -/
theorem c10_witness :
    VA.inferA (.variable "x") VA.emptyEnvA ⟨[], 0, []⟩ = none ∧
    VA.inferA (.variable "y") (VA.envAddVar VA.emptyEnvA "y" .typ) ⟨[], 0, []⟩
      = some (.typ, .variableE "y", ⟨[], 0, []⟩) := by
  constructor
  · exact (c10_infer_variable VA.emptyEnvA "x" ⟨[], 0, []⟩).1 rfl
  · exact (c10_infer_variable (VA.envAddVar VA.emptyEnvA "y" .typ) "y" ⟨[], 0, []⟩).2 .typ rfl

/-- C8 (counterexample to the original claim): `eval (quote v)` is not
identical to `v`.  The Virtual `Forall` below closed over an environment
that defines a term-level binder with the concrete type `Type`, and its
closure body is the de Bruijn reference `Bound 1` to that binder.
Quotation evaluates the body away, producing the Real body `Type`, so
re-evaluating the quotation (here under the identity environment of the
quotation level — the body mismatch is independent of the environment)
yields a closure whose body differs syntactically from the original. -/
theorem c8_counterexample :
    (VA.quoteA 9 1
        (.forallV "a" .typ (.mk [some "x"] [.typ] [.typ] [] 1) (.bound 1)) []).map
        (fun t => VA.evalA t (VA.idEnvA 1))
      ≠ some (.forallV "a" .typ (.mk [some "x"] [.typ] [.typ] [] 1) (.bound 1)) := by
  intro h
  have h2 : some (VA.VTy.forallV "a" .typ (VA.idEnvA 1) .typ)
      = some (VA.VTy.forallV "a" .typ (.mk [some "x"] [.typ] [.typ] [] 1) (.bound 1)) := h
  cases h2

/-- C8 (amended): with the identity environment of the quotation level,
`quote ∘ eval` is the identity on well-scoped Real types none of whose
holes is `Filled` in the store — quotation forces `Filled` holes, so
unforcedness is what "up to hole forcing" denotes, and the type's own
size suffices as fuel (totality).  In the other direction `eval ∘ quote`
restores a Virtual type only up to re-quotation: re-quoting the
evaluation of any successful quotation yields the same Real type (the
syntactic identity stated by the original claim fails, see
`c8_counterexample`, because quotation evaluates closure bodies). -/
theorem c8_quote_eval_id :
    (∀ (t : VA.RTy) (lvl : Nat) (σ : VA.StoreA) (E : VA.EnvT),
        VA.WfR lvl t = true → VA.unforcedR σ t = true → VA.IdLike E lvl →
        VA.quoteA (VA.sizeR t) lvl (VA.evalA t E) σ = some t) ∧
    (∀ (f lvl : Nat) (v : VA.VTy) (σ : VA.StoreA) (t : VA.RTy),
        VA.quoteA f lvl v σ = some t →
        VA.quoteA (VA.sizeR t) lvl (VA.evalA t (VA.idEnvA lvl)) σ = some t) := by
  constructor
  · intro t lvl σ E hw hu hE
    exact (VA.quoteEvalRound (VA.sizeR t)).1 t lvl σ E (Nat.le_refl _) hw hu hE
  · intro f lvl v σ t h
    obtain ⟨hw, hu⟩ := (VA.quoteA_output f).1 lvl v σ t h
    exact (VA.quoteEvalRound (VA.sizeR t)).1 t lvl σ (VA.idEnvA lvl) (Nat.le_refl _) hw hu
      (VA.idEnvA_IdLike lvl)

/-- Witness for `c8_quote_eval_id`: the round trip at the arrow
`Type → Bound 0` under the identity environment at level 1, and the
re-quotation direction at a quoted `Bound 0`. -/
theorem c8_witness :
    VA.quoteA (VA.sizeR (.arrow .typ (.bound 0))) 1
        (VA.evalA (.arrow .typ (.bound 0)) (VA.idEnvA 1)) []
      = some (.arrow .typ (.bound 0)) ∧
    VA.quoteA (VA.sizeR (.bound 0)) 1 (VA.evalA (.bound 0) (VA.idEnvA 1)) []
      = some (.bound 0) :=
  ⟨c8_quote_eval_id.1 (.arrow .typ (.bound 0)) 1 [] (VA.idEnvA 1) rfl rfl
      (VA.idEnvA_IdLike 1),
   c8_quote_eval_id.2 5 1 (.bound 0) [] (.bound 0) rfl⟩
